import Mathlib

/-!
Shallow embedding of the document-layout reconstruction and skill-token
extraction engine of this repository (`backend/src/Parse_resume.py` and
`backend/src/extract_tech.py`).

Modelling conventions:
* Python floats are modelled as rationals (`ℚ`);
* Python strings are Lean `String`s (lists of unicode code points), Python
  `str.strip` is modelled over the six ASCII whitespace characters Python
  strips;
* regular expressions used by the source are modelled by hand-written
  matching functions over `List Char`, following the source patterns;
* the external PDF primitives (pdfplumber / PyMuPDF) are black boxes: the
  data they would return, and the possibility that a call into them raises,
  is the input of the embedded functions (`Except` values).
-/

namespace RS

/-! ### Python string primitives -/

/-- The characters stripped by Python `str.strip()` (ASCII whitespace),
which is also the set matched by `\s` in the source regexes. -/
def _py_ws (c : Char) : Bool :=
  c = ' ' || c = '\t' || c = '\n' || c = '\r' || c = '\x0b' || c = '\x0c'

/-- Drop characters satisfying `p` from both ends of a character list. -/
def _strip_while (p : Char → Bool) (l : List Char) : List Char :=
  ((l.dropWhile p).reverse.dropWhile p).reverse

/-- Python `str.strip()`. -/
def _py_strip (s : String) : String :=
  String.mk (_strip_while _py_ws s.data)

/-- Python `str.lower()` (ASCII case folding, as in `Char.toLower`). -/
def _py_lower (s : String) : String := String.mk (s.data.map Char.toLower)

/-- Helper for `re.sub(r'\s+', ' ', s)`: collapse maximal whitespace runs to
one space.  The flag records whether the previous character was whitespace. -/
def _ws_collapse_go : List Char → Bool → List Char
  | [], _ => []
  | c :: rest, inWs =>
    if _py_ws c then
      if inWs then _ws_collapse_go rest true else ' ' :: _ws_collapse_go rest true
    else c :: _ws_collapse_go rest false

/-- `re.sub(r'\s+', ' ', s)` from the source. -/
def _py_sub_ws (s : String) : String := String.mk (_ws_collapse_go s.data false)

/-- Characters kept by `re.sub(r'[^\x20-\x7E -ɏḀ-ỿ]', '', s)`
(the PDF-artifact allowlist used for table cells). -/
def _latin_ok (c : Char) : Bool :=
  (0x20 ≤ c.toNat && c.toNat ≤ 0x7E) || (0xA0 ≤ c.toNat && c.toNat ≤ 0x24F) ||
    (0x1E00 ≤ c.toNat && c.toNat ≤ 0x1EFF)

/-- `re.sub(r'[^\x20-\x7E -ɏḀ-ỿ]', '', s)`. -/
def _strip_artifacts (s : String) : String := String.mk (s.data.filter _latin_ok)

/-! ### `_bbox_overlap` (Parse_resume.py lines 319-344) -/

/-- `_bbox_overlap(bbox1, bbox2, overlap_threshold=0.5)`: significant-overlap
test between two bounding boxes `[x0, y0, x1, y1]`. -/
def _bbox_overlap (bbox1 bbox2 : List ℚ) (overlap_threshold : ℚ := 1/2) : Bool :=
  if bbox1.isEmpty ∨ bbox2.isEmpty ∨ bbox1.length < 4 ∨ bbox2.length < 4 then false
  else
    let x_overlap := max 0 (min (bbox1.getD 2 0) (bbox2.getD 2 0) -
      max (bbox1.getD 0 0) (bbox2.getD 0 0))
    let y_overlap := max 0 (min (bbox1.getD 3 0) (bbox2.getD 3 0) -
      max (bbox1.getD 1 0) (bbox2.getD 1 0))
    if x_overlap ≤ 0 ∨ y_overlap ≤ 0 then false
    else
      let intersection_area := x_overlap * y_overlap
      let area1 := (bbox1.getD 2 0 - bbox1.getD 0 0) * (bbox1.getD 3 0 - bbox1.getD 1 0)
      let area2 := (bbox2.getD 2 0 - bbox2.getD 0 0) * (bbox2.getD 3 0 - bbox2.getD 1 0)
      if area1 ≤ 0 ∨ area2 ≤ 0 then false
      else
        let smaller_area := min area1 area2
        let overlap_ratio := intersection_area / smaller_area
        decide (overlap_ratio ≥ overlap_threshold)

/-! ### `_is_valid_table` (Parse_resume.py lines 29-93) -/

/-- A cell counted by the source as non-empty: `cell and cell.strip()`. -/
def _cell_nonempty (cell : String) : Bool := cell ≠ "" && _py_strip cell ≠ ""

/-- Number of cells of one row counted by `sum(1 for cell in row if cell and cell.strip())`. -/
def _row_nonempty_count (row : List String) : Nat :=
  (row.filter _cell_nonempty).length

/-- Rows of the grid with at least two non-empty (after stripping) cells. -/
def _multi_cell_rows (g : List (List String)) : Nat :=
  (g.filter (fun row => 2 ≤ _row_nonempty_count row)).length

/-- The source's list-pattern test for one row: at least 2 cells, the first
cell longer than 50 characters after stripping, and at most one *raw*
non-empty other cell (`[cell.strip() for cell in row[1:] if cell]`, whose
filter tests the raw cell before stripping). -/
def _list_like_row (row : List String) : Bool :=
  2 ≤ row.length &&
  (let first_cell := if row.headD "" = "" then "" else _py_strip (row.headD "")
   50 < first_cell.length) &&
  (row.tail.filter (fun c => c ≠ "")).length ≤ 1

/-- Count of list-like rows. -/
def _list_pattern_count (g : List (List String)) : Nat :=
  (g.filter _list_like_row).length

/-- Total number of non-empty cells in the grid. -/
def _total_cells (g : List (List String)) : Nat :=
  (g.map _row_nonempty_count).sum

/-- Number of non-empty cells whose stripped text exceeds 100 characters. -/
def _long_text_cells (g : List (List String)) : Nat :=
  (g.map (fun row =>
    (row.filter (fun c => _cell_nonempty c && 100 < (_py_strip c).length)).length)).sum

/-- Maximum row length of the grid (`max(row_lengths)`; 0 for the empty grid,
which the source never reaches because of the 3-row guard). -/
def _max_cols (g : List (List String)) : Nat :=
  (g.map List.length).foldr max 0

/-- `_is_valid_table(cleaned_data)`: decide whether a detected grid is a real
table rather than formatted prose. Transcribed check by check from the source. -/
def _is_valid_table (cleaned_data : List (List String)) : Bool :=
  if cleaned_data.length < 3 then false
  else if 2 < (cleaned_data.map List.length).dedup.length then false
  else if _max_cols cleaned_data < 2 then false
  else if (_multi_cell_rows cleaned_data : ℚ) / cleaned_data.length < 1/2 then false
  else if (_list_pattern_count cleaned_data : ℚ) / cleaned_data.length > 3/5 then false
  else if 0 < _total_cells cleaned_data ∧
      (_long_text_cells cleaned_data : ℚ) / (_total_cells cleaned_data : ℚ) > 7/10 then false
  else true

/-! ### `_create_clean_markdown_table` (Parse_resume.py lines 188-226) -/

/-- Header labels: strip each header, replacing blank headers by a positional
`Col_<i+1>` placeholder. -/
def _clean_headers (headers : List String) : List String :=
  headers.enum.map (fun p =>
    let header_str := if p.2 = "" then "" else _py_strip p.2
    if header_str = "" then "Col_" ++ toString (p.1 + 1) else header_str)

/-- One rendered data row: every cell stripped and whitespace-collapsed,
never truncated. -/
def _render_data_row (row : List String) : String :=
  "| " ++ String.intercalate " | "
    (row.map (fun cell => _py_sub_ws (if cell = "" then "" else _py_strip cell))) ++ " |"

/-- `_create_clean_markdown_table(data)`: markdown rendering of a normalized
grid; empty string for grids with fewer than 2 rows. -/
def _create_clean_markdown_table (data : List (List String)) : String :=
  if data.isEmpty ∨ data.length < 2 then ""
  else
    let headers := data.headD []
    let rows := data.tail
    let clean_headers := _clean_headers headers
    let header_line := "| " ++ String.intercalate " | " (clean_headers.map _py_strip) ++ " |"
    let separator_line := "| " ++ String.intercalate " | "
      (clean_headers.map (fun h => String.mk (List.replicate (max 3 h.length) '-'))) ++ " |"
    String.intercalate "\n" (header_line :: separator_line :: rows.map _render_data_row)

/-! ### `extract_tech.py`: token cleaning and skill extraction -/

/-- The stopword set.  The source prefers the spaCy or nltk stopword corpora
(external data); the embedding models the in-source minimal fallback set. -/
def STOPWORDS : List String :=
  ["and", "or", "with", "the", "a", "an", "in", "on", "for", "to", "of", "by", "from", "at"]

/-- The character class `[A-Za-z0-9#+./\-]` kept at token edges. -/
def _allowed_char (c : Char) : Bool :=
  c.isAlpha || c.isDigit || c = '#' || c = '+' || c = '.' || c = '/' || c = '-'

/-- `_token_clean(tok)`: strip whitespace, then remove any leading and
trailing runs of characters outside `[A-Za-z0-9#+./\-]`
(`re.sub(r"^[^A-Za-z0-9#+./\-]+|[^A-Za-z0-9#+./\-]+$", '', t)`). -/
def _token_clean (tok : String) : String :=
  let t := _strip_while _py_ws tok.data
  String.mk (_strip_while (fun c => !_allowed_char c) t)

/-- Line-break characters recognised by the model of Python `str.splitlines`. -/
def _is_linebreak (c : Char) : Bool :=
  c = '\n' || c = '\r' || c = '\x0b' || c = '\x0c' ||
  c = '\x1c' || c = '\x1d' || c = '\x1e' || c = '\x85' || c = ' ' || c = ' '

/-- Worker for `str.splitlines`: emit a line at every line break (`\r\n`
counts once), and emit the final partial line only when non-empty.  The
fuel argument bounds the recursion; every step consumes at least one
character, so the input length is always enough. -/
def _splitlines_go : Nat → List Char → List Char → List String
  | _, [], acc => if acc.isEmpty then [] else [String.mk acc.reverse]
  | 0, _ :: _, _ => []
  | fuel + 1, c :: rest, acc =>
    if c = '\r' ∧ rest.head? = some '\n' then
      String.mk acc.reverse :: _splitlines_go fuel rest.tail []
    else if _is_linebreak c then String.mk acc.reverse :: _splitlines_go fuel rest []
    else _splitlines_go fuel rest (c :: acc)

/-- Python `str.splitlines()`. -/
def py_splitlines (s : String) : List String := _splitlines_go s.data.length s.data []

/-- One atom of a keyword pattern: a literal word, or `\s*`. -/
inductive PatAtom where
  | lit : List Char → PatAtom
  | gap : PatAtom

/-- Match a keyword pattern (case-insensitively) against the front of a
character list, returning the unmatched remainder.  Each `\s*` gap is
followed by a literal starting with a non-space character, so greedy
whitespace consumption is exact. -/
def _match_atoms : List PatAtom → List Char → Option (List Char)
  | [], rest => some rest
  | .lit w :: ps, rest =>
    if w.length ≤ rest.length ∧ (rest.take w.length).map Char.toLower = w then
      _match_atoms ps (rest.drop w.length)
    else none
  | .gap :: ps, rest => _match_atoms ps (rest.dropWhile _py_ws)

/-- The keyword alternatives of `heading_re`, in the source's order. -/
def _heading_alts : List (List PatAtom) :=
  [[.lit "skills".data], [.lit "technical skills".data],
   [.lit "tech".data, .gap, .lit "stack".data], [.lit "techstack".data],
   [.lit "technology".data, .gap, .lit "stack".data], [.lit "technologies".data],
   [.lit "tools".data], [.lit "skillset".data], [.lit "technical competencies".data]]

/-- The keyword alternatives of `inline_heading_re` (no
`technical competencies`), in the source's order. -/
def _inline_alts : List (List PatAtom) :=
  [[.lit "skills".data], [.lit "technical skills".data],
   [.lit "tech".data, .gap, .lit "stack".data], [.lit "techstack".data],
   [.lit "technology".data, .gap, .lit "stack".data], [.lit "technologies".data],
   [.lit "tools".data], [.lit "skillset".data]]

/-- The class `[:\s-]` used after a heading keyword. -/
def _heading_class (c : Char) : Bool := c = ':' || _py_ws c || c = '-'

/-- `heading_re.match(line)`: the whole line is one keyword followed only by
`[:\s-]*`. -/
def _heading_re_match (l : String) : Bool :=
  _heading_alts.any (fun pat =>
    match _match_atoms pat l.data with
    | some rest => rest.all _heading_class
    | none => false)

/-- Capture of `[:\s-]+(.+)$` against `rest`: the greedy class run must be
non-empty; the capture is what follows it, or (by backtracking one class
character into `.+`) the run's last character when nothing follows. -/
def _inline_capture (rest : List Char) : Option (List Char) :=
  let run := rest.takeWhile _heading_class
  let rem := rest.drop run.length
  if run.length = 0 then none
  else if rem ≠ [] then some rem
  else if 2 ≤ run.length then some [run.getLastD ' ']
  else none

/-- `inline_heading_re.match(line)`: the first keyword alternative that is
followed by a `[:\s-]+` run and a non-empty capture yields that capture
(regex group 2). -/
def _inline_heading_match (l : String) : Option String :=
  _inline_alts.findSome? (fun pat =>
    match _match_atoms pat l.data with
    | some rest => (_inline_capture rest).map String.mk
    | none => none)

/-- A regex word character (`\w`), for `\b` boundaries. -/
def _word_char (c : Char) : Bool := c.isAlpha || c.isDigit || c = '_'

/-- The `\b` word-boundary test against an adjacent character (`none` at
the ends of the string). -/
def _boundary_ok (adj : Option Char) : Bool :=
  match adj with
  | none => true
  | some c => !_word_char c

/-- Try `\btech\s*stack\b\s*[:：]\s*(.+)$` at the current position (`prev` is
the character just before it, if any), returning the capture. -/
def _techstack_at (prev : Option Char) (l : List Char) : Option (List Char) :=
  if !_boundary_ok prev then none
  else
    match _match_atoms [.lit "tech".data, .gap, .lit "stack".data] l with
    | none => none
    | some rest =>
      if !_boundary_ok rest.head? then none
      else
        let rest2 := rest.dropWhile _py_ws
        match rest2 with
        | c :: rest3 =>
          if c = ':' ∨ c = '：' then
            let wsrun := rest3.takeWhile _py_ws
            let rest4 := rest3.drop wsrun.length
            if rest4 ≠ [] then some rest4
            else if wsrun ≠ [] then some [wsrun.getLastD ' ']
            else none
          else none
        | [] => none

/-- `techstack_line_re.search(line)`: scan left to right for the first
position where the tech-stack pattern matches; return its capture. -/
def _techstack_search : Option Char → List Char → Option String
  | _, [] => none
  | prev, c :: rest =>
    match _techstack_at prev (c :: rest) with
    | some cap => some (String.mk cap)
    | none => _techstack_search (some c) rest

/-- Python `str.split()` (split on whitespace runs, dropping empties). -/
def _words_go : List Char → List Char → List String
  | [], acc => if acc.isEmpty then [] else [String.mk acc.reverse]
  | c :: rest, acc =>
    if _py_ws c then
      if acc.isEmpty then _words_go rest [] else String.mk acc.reverse :: _words_go rest []
    else _words_go rest (c :: acc)

/-- Python `str.split()` on a string. -/
def _py_split_ws (s : String) : List String := _words_go s.data []

/-- The new-heading test stopping a heading block:
`re.match(r'^[A-Z][A-Za-z ]{1,40}$', line) and len(line.split()) <= 4`. -/
def _is_new_heading (l : String) : Bool :=
  match l.data with
  | [] => false
  | c :: rest =>
    c.isUpper && 1 ≤ rest.length && rest.length ≤ 40 &&
      rest.all (fun d => d.isAlpha || d = ' ') && (_py_split_ws l).length ≤ 4

/-- The lines consumed into a heading block: non-blank lines up to the first
line that looks like a new heading. -/
def _grab_block (ls : List String) : List String :=
  ls.takeWhile (fun l => _py_strip l ≠ "" && !_is_new_heading l)

/-- The candidate-collection loop of `extract_skills_from_text` (the `while
i < len(lines)` loop).  `fuel` bounds the recursion; it is called with the
number of lines, which the loop never exceeds since every step consumes at
least one line. -/
def _scan_lines : Nat → List String → List String
  | 0, _ => []
  | _, [] => []
  | fuel + 1, line :: rest =>
    if line = "" then _scan_lines fuel rest
    else
      match _inline_heading_match line with
      | some cap => _py_strip cap :: _scan_lines fuel rest
      | none =>
        match _techstack_search none line.data with
        | some cap => _py_strip cap :: _scan_lines fuel rest
        | none =>
          if _heading_re_match line then
            let buf := _grab_block rest
            (if buf.isEmpty then [] else [String.intercalate " " buf]) ++
              _scan_lines fuel (rest.drop buf.length)
          else _scan_lines fuel rest

/-- The splitting class `[,/;|•]` of `split_re`. -/
def _split_char (c : Char) : Bool :=
  c = ',' || c = '/' || c = ';' || c = '|' || c = '•'

/-- `re.split(r'[,/;|•]+', s)` worker: pieces between maximal runs of
splitting characters (empty edge pieces included).  The flag records whether
the previous character was a splitting character. -/
def _split_go : List Char → List Char → Bool → List String
  | [], acc, _ => [String.mk acc.reverse]
  | c :: rest, acc, inSep =>
    if _split_char c then
      if inSep then _split_go rest [] true
      else String.mk acc.reverse :: _split_go rest [] true
    else _split_go rest (c :: acc) false

/-- `split_re.split(cand)`. -/
def _split_parts (s : String) : List String := _split_go s.data [] false

/-- The acceptance heuristic: at least one letter, and punctuation
(`[+.#-]`), a digit, or length above 1. -/
def _accept_token (tok : String) : Bool :=
  tok.data.any Char.isAlpha &&
    (tok.data.any (fun c => c = '+' || c = '.' || c = '#' || c = '-') ||
     tok.data.any Char.isDigit || 1 < tok.length)

/-- The token filtering loop: clean, drop empties and stopwords, apply the
acceptance heuristic, and de-duplicate by lowercase key (`seen`). -/
def _filter_tokens : List String → List String → List String
  | [], _ => []
  | p :: ps, seen =>
    let tok := _token_clean p
    if tok = "" then _filter_tokens ps seen
    else
      let key := _py_lower tok
      if STOPWORDS.contains key then _filter_tokens ps seen
      else if _accept_token tok && !seen.contains key then
        tok :: _filter_tokens ps (key :: seen)
      else _filter_tokens ps seen

/-- `extract_skills_from_text(text)`: collect candidate strings from skill
headings and tech-stack lines, split them on delimiters, and clean, filter
and de-duplicate the resulting tokens. -/
def extract_skills_from_text (text : String) : List String :=
  if text = "" then []
  else
    let lines := (py_splitlines text).map _py_strip
    let candidates := _scan_lines lines.length lines
    _filter_tokens (candidates.flatMap _split_parts) []

/-! ### `extract_tables_with_pdfplumber` (Parse_resume.py lines 95-186)

The pdfplumber library is a black box: a `PPage` carries what
`page.find_tables(...)` would return for that page (or the exception it
would raise), and each raw table carries what `table.extract()` would
return (or its exception) together with its bounding box. -/

/-- A raw table candidate returned by `page.find_tables`. -/
structure PTable where
  bbox : List ℚ
  extract : Except String (List (List (Option String)))

/-- One pdfplumber page. -/
structure PPage where
  find_tables : Except String (List PTable)

/-- A processed table element (the dict built at lines 166-174). -/
structure TableElem where
  content : String
  bbox : List ℚ
  y_position : ℚ
  rows : Nat
  cols : Nat
  raw_data : List (List String)
  deriving DecidableEq, Repr

/-- Cleaning of one raw cell: `str(cell).strip()` for non-`None` cells, then
whitespace collapsing and the PDF-artifact filter. -/
def _clean_cell (cell : Option String) : String :=
  match cell with
  | none => ""
  | some s => _strip_artifacts (_py_sub_ws (_py_strip s))

/-- Row pre-filter: `row and any(cell and str(cell).strip() for cell in row
if cell is not None)`. -/
def _row_has_content (row : List (Option String)) : Bool :=
  !row.isEmpty && row.any (fun cell =>
    match cell with
    | none => false
    | some s => s ≠ "" && _py_strip s ≠ "")

/-- The cleaned grid built from `table.extract()` output: rows with content,
cleaned cell by cell, kept only when some cleaned cell is non-empty. -/
def _cleaned_data (table_data : List (List (Option String))) : List (List String) :=
  (table_data.filter _row_has_content).filterMap (fun row =>
    let cleaned_row := row.map _clean_cell
    if cleaned_row.any (fun cell => cell ≠ "") then some cleaned_row else none)

/-- Pad every row to the maximal column count (`row.append("")` then
`row[:max_cols]`). -/
def _normalize_grid (g : List (List String)) : List (List String) :=
  let max_cols := _max_cols g
  g.map (fun row => (row ++ List.replicate (max_cols - row.length) "").take max_cols)

/-- Processing of one raw table (the inner `try` body, lines 128-178): a
failing `table.extract()` is skipped (`continue`), small grids and grids
rejected by `_is_valid_table` produce nothing. -/
def _process_ptable (t : PTable) : Option TableElem :=
  match t.extract with
  | .error _ => none
  | .ok table_data =>
    if table_data.isEmpty ∨ table_data.length < 2 then none
    else
      let cleaned_data := _cleaned_data table_data
      if cleaned_data.length < 2 then none
      else if !_is_valid_table cleaned_data then none
      else
        let normalized_data := _normalize_grid cleaned_data
        let max_cols := _max_cols cleaned_data
        some
          { content := _create_clean_markdown_table normalized_data
            bbox := t.bbox
            y_position := if t.bbox.isEmpty then 0 else t.bbox.getD 1 0
            rows := normalized_data.length
            cols := max_cols
            raw_data := normalized_data }

/-- The page loop of `extract_tables_with_pdfplumber`.  A raise of
`page.find_tables` is caught by the function-level `except`, so the pages
accumulated so far are returned and no later page is processed. -/
def _tables_go : List PPage → Nat → List (Nat × List TableElem)
  | [], _ => []
  | p :: rest, page_num =>
    match p.find_tables with
    | .error _ => []
    | .ok detected_tables =>
      let tables := detected_tables.filterMap _process_ptable
      (if tables.isEmpty then [] else [(page_num, tables)]) ++ _tables_go rest (page_num + 1)

/-- `extract_tables_with_pdfplumber(pdf_path)`: table extraction per page;
a failure to open the PDF yields the empty mapping. -/
def extract_tables_with_pdfplumber (pdf : Except String (List PPage)) :
    List (Nat × List TableElem) :=
  match pdf with
  | .error _ => []
  | .ok pages => _tables_go pages 0

/-! ### `extract_text_with_pymupdf` (Parse_resume.py lines 228-317) -/

/-- One text span of a PyMuPDF text dictionary. -/
structure Span where
  text : String
  size : ℚ
  flags : Nat

/-- One line of spans. -/
structure FLine where
  spans : List Span

/-- One block: a text block carries lines and a bounding box; other blocks
(images) have no `"lines"` key and are skipped. -/
inductive FBlock where
  | textBlock (lines : List FLine) (bbox : List ℚ)
  | imageBlock

/-- One PyMuPDF page: what `page.get_text("dict")` would return, or the
exception it would raise. -/
structure FPage where
  get_text : Except String (List FBlock)

/-- A processed text block (the dict built at lines 299-307). -/
structure TextBlockElem where
  content : String
  type : String
  bbox : List ℚ
  y_position : ℚ
  font_size : ℚ
  is_bold : Bool
  block_number : Nat
  deriving DecidableEq, Repr

/-- The text of one line: non-empty stripped span texts, each followed by a
space. -/
def _line_text (line : FLine) : String :=
  line.spans.foldl (fun acc span =>
    let text := _py_strip span.text
    if text ≠ "" then acc ++ text ++ " " else acc) ""

/-- The spans that contribute font information (those with non-empty
stripped text). -/
def _content_spans (lines : List FLine) : List Span :=
  lines.flatMap (fun line => line.spans.filter (fun span => _py_strip span.text ≠ ""))

/-- The accumulated block text: every line with non-blank text contributes
its stripped text plus a space. -/
def _block_text (lines : List FLine) : String :=
  lines.foldl (fun acc line =>
    let lt := _line_text line
    if _py_strip lt ≠ "" then acc ++ _py_strip lt ++ " " else acc) ""

/-- Bold flag: some contributing span has bit 4 set in its font flags. -/
def _block_is_bold (lines : List FLine) : Bool :=
  (_content_spans lines).any (fun span => span.flags / 16 % 2 = 1)

/-- Average font size of the contributing spans (`np.mean`), 12 when there
are none. -/
def _avg_font_size (lines : List FLine) : ℚ :=
  let sizes := (_content_spans lines).map Span.size
  if sizes.isEmpty then 12 else sizes.sum / sizes.length

/-- Processing of one block (lines 255-307): skip image blocks, blocks with
blank text and blocks overlapping a detected table region. -/
def _process_fblock (table_bboxes : List (List ℚ)) (block_num : Nat) (b : FBlock) :
    Option TextBlockElem :=
  match b with
  | .imageBlock => none
  | .textBlock lines bbox =>
    let block_text := _block_text lines
    if _py_strip block_text = "" then none
    else if table_bboxes.any (fun table_bbox => _bbox_overlap bbox table_bbox (1/2)) then none
    else
      let is_bold := _block_is_bold lines
      let avg_font_size := _avg_font_size lines
      let content_type :=
        if is_bold ∧ avg_font_size > 14 then "heading"
        else if is_bold then "subheading"
        else "text"
      some
        { content := _py_strip block_text
          type := content_type
          bbox := bbox
          y_position := if bbox.isEmpty then 0 else bbox.getD 1 0
          font_size := avg_font_size
          is_bold := is_bold
          block_number := block_num }

/-- The page loop of `extract_text_with_pymupdf`: a raise of
`page.get_text` is caught by the function-level `except`, so the pages
accumulated so far are returned and no later page is processed. -/
def _text_go (page_tables : List (Nat × List TableElem)) :
    List FPage → Nat → List (Nat × List TextBlockElem)
  | [], _ => []
  | p :: rest, page_num =>
    match p.get_text with
    | .error _ => []
    | .ok blocks =>
      let table_bboxes := (((page_tables.lookup page_num).getD []).map TableElem.bbox)
      let text_blocks := blocks.enum.filterMap
        (fun q => _process_fblock table_bboxes q.1 q.2)
      (if text_blocks.isEmpty then [] else [(page_num, text_blocks)]) ++
        _text_go page_tables rest (page_num + 1)

/-- `extract_text_with_pymupdf(pdf_path, page_tables)`: text extraction per
page avoiding table regions; a failure to open the PDF yields the empty
mapping. -/
def extract_text_with_pymupdf (pdf : Except String (List FPage))
    (page_tables : List (Nat × List TableElem)) : List (Nat × List TextBlockElem) :=
  match pdf with
  | .error _ => []
  | .ok pages => _text_go page_tables pages 0

/-! ### `merge_page_content` (Parse_resume.py lines 346-387) -/

/-- One merged content element (the dicts built at lines 362-382). -/
inductive MergedElem where
  | text (content : String) (type : String) (y_position : ℚ) (page : Nat)
      (bbox : List ℚ) (font_size : ℚ) (is_bold : Bool)
  | table (content : String) (y_position : ℚ) (page : Nat) (bbox : List ℚ)
      (rows : Nat) (cols : Nat)
  deriving DecidableEq, Repr

/-- The sort key `x['y_position']`. -/
def MergedElem.y_position : MergedElem → ℚ
  | .text _ _ y _ _ _ _ => y
  | .table _ y _ _ _ _ => y

/-- The `type` field of a merged element. -/
def MergedElem.type : MergedElem → String
  | .text _ ty _ _ _ _ _ => ty
  | .table _ _ _ _ _ _ => "table"

/-- The `content` field of a merged element. -/
def MergedElem.content : MergedElem → String
  | .text c _ _ _ _ _ _ => c
  | .table c _ _ _ _ _ => c

/-- The combined, unsorted page content: text blocks first, then tables,
each in detection order. -/
def _merge_input (page_num : Nat) (text_blocks : List TextBlockElem)
    (tables : List TableElem) : List MergedElem :=
  text_blocks.map (fun b =>
    .text b.content b.type b.y_position (page_num + 1) b.bbox b.font_size b.is_bold) ++
  tables.map (fun t =>
    .table t.content t.y_position (page_num + 1) t.bbox t.rows t.cols)

/-- The sort relation used by `all_content.sort(key=lambda x: x['y_position'])`. -/
def _merge_le (a b : MergedElem) : Prop := a.y_position ≤ b.y_position

instance : DecidableRel _merge_le := fun a b =>
  inferInstanceAs (Decidable (a.y_position ≤ b.y_position))

instance : IsTotal MergedElem _merge_le := ⟨fun a b => le_total a.y_position b.y_position⟩

instance : IsTrans MergedElem _merge_le :=
  ⟨fun _ _ _ hab hbc => le_trans hab hbc⟩

/-- `merge_page_content(page_num, text_blocks, tables)`: one ordered
sequence of content elements, sorted by vertical position.  Python
`list.sort` is a stable sort keyed on `y_position`; insertion sort with the
non-strict key order is the same stable sort. -/
def merge_page_content (page_num : Nat) (text_blocks : List TextBlockElem)
    (tables : List TableElem) : List MergedElem :=
  (_merge_input page_num text_blocks tables).insertionSort _merge_le

/-! ### `clean_text_content` and the document assembler (lines 389-515) -/

/-- Collapse maximal runs of spaces and tabs to one space
(`re.sub(r'[ \t]+', ' ', text)`). -/
def _spacetab_collapse_go : List Char → Bool → List Char
  | [], _ => []
  | c :: rest, inRun =>
    if c = ' ' ∨ c = '\t' then
      if inRun then _spacetab_collapse_go rest true else ' ' :: _spacetab_collapse_go rest true
    else c :: _spacetab_collapse_go rest false

/-- A match of `\n\s*\n\s*\n+` starts at a newline whose maximal whitespace
run contains at least three newlines; the greedy match extends to the last
newline of that run. -/
def _nl_match_len (l : List Char) : Option Nat :=
  match l with
  | '\n' :: _ =>
    let run := l.takeWhile _py_ws
    if 3 ≤ (run.filter (fun c => c = '\n')).length then
      some ((run.reverse.dropWhile (fun c => c ≠ '\n')).reverse).length
    else none
  | _ => none

/-- `re.sub(r'\n\s*\n\s*\n+', '\n\n', text)`: replace every such greedy
match by two newlines, scanning left to right.  `fuel` bounds the recursion
by the input length. -/
def _nl_collapse_go : Nat → List Char → List Char
  | 0, l => l
  | _ + 1, [] => []
  | fuel + 1, c :: rest =>
    match _nl_match_len (c :: rest) with
    | some n => '\n' :: '\n' :: _nl_collapse_go fuel ((c :: rest).drop n)
    | none => c :: _nl_collapse_go fuel rest

/-- Characters kept by the text-content artifact filter (the table-cell
allowlist plus `\n`, `\r`, `\t`). -/
def _text_ok (c : Char) : Bool := _latin_ok c || c = '\n' || c = '\r' || c = '\t'

/-- `clean_text_content(text)`: whitespace normalization, artifact removal,
replacement-character removal, and strip. -/
def clean_text_content (text : String) : String :=
  if text = "" then ""
  else
    let t1 := _spacetab_collapse_go text.data false
    let t2 := _nl_collapse_go t1.length t1
    let t3 := t2.filter _text_ok
    let t4 := t3.filter (fun c => c ≠ '�')
    String.mk (_strip_while _py_ws t4)

/-- The banner rule `"="*60`. -/
def _rule60 : String := String.mk (List.replicate 60 '=')

/-- The per-element appending of the final-output loop (lines 452-470). -/
def _append_element (acc : String) (item : MergedElem) : String :=
  let content := _py_strip item.content
  if item.type = "table" then
    acc ++ "\n" ++ _rule60 ++ "\n" ++ "TABLE:\n" ++ _rule60 ++ "\n\n" ++
      content ++ "\n\n" ++ _rule60 ++ "\n\n"
  else if item.type = "heading" then
    acc ++ "\n" ++ content ++ "\n" ++
      String.mk (List.replicate (min content.length 60) '-') ++ "\n\n"
  else
    let cleaned_content := clean_text_content content
    if cleaned_content ≠ "" then acc ++ cleaned_content ++ "\n\n" else acc

/-- The assembled output text of the whole document. -/
def _final_text (all_content : List MergedElem) : String :=
  all_content.foldl _append_element ""

/-! ### `parse_document_hybrid` (Parse_resume.py lines 406-515) -/

/-- The `metadata` dictionary of a parse result. -/
structure ParseMetadata where
  total_elements : Nat
  text_elements : Nat
  table_elements : Nat
  pages_processed : Nat
  characters_extracted : Nat
  error : Option String
  deriving DecidableEq, Repr

/-- A parse result.  Wall-clock processing time is not modelled and is 0 in
both variants. -/
structure ParseResult where
  document_name : String
  content : String
  total_pages : Nat
  parsing_method : String
  processing_time : ℚ
  metadata : ParseMetadata
  deriving DecidableEq, Repr

/-- The input of a parse: the document name (`os.path.basename(pdf_path)`)
and the behaviour of the three library calls made on the path — the
pdfplumber open, the PyMuPDF open inside `extract_text_with_pymupdf`, and
the second PyMuPDF open used to read the page count (each modelled
independently, since each call into the black-box libraries may
independently succeed or raise). -/
structure PdfFile where
  name : String
  plumber : Except String (List PPage)
  fitz : Except String (List FPage)
  page_count : Except String Nat

/-- `parse_document_hybrid(pdf_path)`.  The two extraction helpers swallow
their own exceptions; the only raise reaching the function-level `try` in
this model is the page-count open, which produces the error result of
lines 499-515. -/
def parse_document_hybrid (pdf : PdfFile) : ParseResult :=
  let page_tables := extract_tables_with_pdfplumber pdf.plumber
  let total_tables := (page_tables.map (fun p => p.2.length)).sum
  let page_text_blocks := extract_text_with_pymupdf pdf.fitz page_tables
  let total_text_blocks := (page_text_blocks.map (fun p => p.2.length)).sum
  match pdf.page_count with
  | .error e =>
    { document_name := pdf.name
      content := ""
      total_pages := 0
      parsing_method := "hybrid_error"
      processing_time := 0
      metadata :=
        { total_elements := 0
          text_elements := 0
          table_elements := 0
          pages_processed := 0
          characters_extracted := 0
          error := some e } }
  | .ok total_pages =>
    let all_content := (List.range total_pages).flatMap (fun page_num =>
      merge_page_content page_num ((page_text_blocks.lookup page_num).getD [])
        ((page_tables.lookup page_num).getD []))
    let final_text := _final_text all_content
    { document_name := pdf.name
      content := _py_strip final_text
      total_pages := total_pages
      parsing_method := "hybrid_pymupdf_pdfplumber"
      processing_time := 0
      metadata :=
        { total_elements := all_content.length
          text_elements := total_text_blocks
          table_elements := total_tables
          pages_processed := total_pages
          characters_extracted := final_text.length
          error := none } }

/-! ## Theorems -/

/-- C10: the table renderer returns the empty string for every grid with
fewer than 2 rows (including the empty grid). -/
theorem markdown_table_empty_on_small_grid (data : List (List String))
    (h : data.length < 2) : _create_clean_markdown_table data = "" := by
  unfold _create_clean_markdown_table
  rw [if_pos (Or.inr h)]

/-- Witness for C10 at the empty grid and a one-row grid. -/
theorem markdown_table_empty_on_small_grid_witness :
    (([] : List (List String)).length < 2 ∧ _create_clean_markdown_table [] = "") ∧
      ([["one", "row"]].length < 2 ∧ _create_clean_markdown_table [["one", "row"]] = "") :=
  ⟨⟨by decide, markdown_table_empty_on_small_grid [] (by decide)⟩,
   ⟨by decide, markdown_table_empty_on_small_grid [["one", "row"]] (by decide)⟩⟩

/-- C3: on two four-component boxes, `_bbox_overlap` is `true` exactly when
both boxes have positive area, the rectangles have a positive-area
intersection, and `intersectionArea / min(areaA, areaB) ≥ t`; in
particular a degenerate box (area zero or negative) never overlaps
anything. -/
theorem bbox_overlap_characterization (a0 a1 a2 a3 b0 b1 b2 b3 t : ℚ) :
    (_bbox_overlap [a0, a1, a2, a3] [b0, b1, b2, b3] t =
      (decide (0 < min a2 b2 - max a0 b0) && decide (0 < min a3 b3 - max a1 b1) &&
       decide (0 < (a2 - a0) * (a3 - a1)) && decide (0 < (b2 - b0) * (b3 - b1)) &&
       decide ((min a2 b2 - max a0 b0) * (min a3 b3 - max a1 b1) /
         min ((a2 - a0) * (a3 - a1)) ((b2 - b0) * (b3 - b1)) ≥ t))) ∧
    ((a2 - a0) * (a3 - a1) ≤ 0 →
      _bbox_overlap [a0, a1, a2, a3] [b0, b1, b2, b3] t = false) ∧
    ((b2 - b0) * (b3 - b1) ≤ 0 →
      _bbox_overlap [a0, a1, a2, a3] [b0, b1, b2, b3] t = false) := by
  have key : _bbox_overlap [a0, a1, a2, a3] [b0, b1, b2, b3] t =
      (decide (0 < min a2 b2 - max a0 b0) && decide (0 < min a3 b3 - max a1 b1) &&
       decide (0 < (a2 - a0) * (a3 - a1)) && decide (0 < (b2 - b0) * (b3 - b1)) &&
       decide ((min a2 b2 - max a0 b0) * (min a3 b3 - max a1 b1) /
         min ((a2 - a0) * (a3 - a1)) ((b2 - b0) * (b3 - b1)) ≥ t)) := by
    unfold _bbox_overlap
    rw [if_neg (by simp)]
    dsimp only [List.getD_cons_zero, List.getD_cons_succ]
    by_cases hx : min a2 b2 - max a0 b0 ≤ 0
    · rw [if_pos (Or.inl (by simp [hx])), decide_eq_false (not_lt.mpr hx)]
      simp only [Bool.false_and]
    · by_cases hy : min a3 b3 - max a1 b1 ≤ 0
      · rw [if_pos (Or.inr (by simp [hy])), decide_eq_false (not_lt.mpr hy)]
        simp only [Bool.and_false, Bool.false_and]
      · rw [if_neg (by simp [sup_le_iff, hx, hy])]
        simp only [max_eq_right (le_of_not_le hx), max_eq_right (le_of_not_le hy)]
        by_cases hA : (a2 - a0) * (a3 - a1) ≤ 0
        · rw [if_pos (Or.inl hA), decide_eq_false (not_lt.mpr hA)]
          simp only [Bool.and_false, Bool.false_and]
        · by_cases hB : (b2 - b0) * (b3 - b1) ≤ 0
          · rw [if_pos (Or.inr hB), decide_eq_false (not_lt.mpr hB)]
            simp only [Bool.and_false, Bool.false_and]
          · rw [if_neg (by tauto), decide_eq_true (not_le.mp hx),
              decide_eq_true (not_le.mp hy), decide_eq_true (not_le.mp hA),
              decide_eq_true (not_le.mp hB)]
            simp only [Bool.true_and]
  refine ⟨key, fun hA => ?_, fun hB => ?_⟩
  · rw [key, decide_eq_false (not_lt.mpr hA)]
    simp only [Bool.and_false, Bool.false_and]
  · rw [key, decide_eq_false (not_lt.mpr hB)]
    simp only [Bool.and_false, Bool.false_and]

/-- Witness for C3: a degenerate (zero-width) box does not overlap a unit
square, via the second conjunct. -/
theorem bbox_overlap_characterization_witness :
    _bbox_overlap [0, 0, 0, 4] [0, 0, 2, 2] (1/2) = false :=
  (bbox_overlap_characterization 0 0 0 4 0 0 2 2 (1/2)).2.1 (by norm_num)

/-- Full boolean characterization of `_bbox_overlap` on arbitrary lists. -/
theorem _bbox_overlap_eq (bbox1 bbox2 : List ℚ) (t : ℚ) :
    _bbox_overlap bbox1 bbox2 t =
      (decide ¬(bbox1.isEmpty = true ∨ bbox2.isEmpty = true ∨
          bbox1.length < 4 ∨ bbox2.length < 4) &&
       decide (0 < min (bbox1.getD 2 0) (bbox2.getD 2 0) -
         max (bbox1.getD 0 0) (bbox2.getD 0 0)) &&
       decide (0 < min (bbox1.getD 3 0) (bbox2.getD 3 0) -
         max (bbox1.getD 1 0) (bbox2.getD 1 0)) &&
       decide (0 < (bbox1.getD 2 0 - bbox1.getD 0 0) * (bbox1.getD 3 0 - bbox1.getD 1 0)) &&
       decide (0 < (bbox2.getD 2 0 - bbox2.getD 0 0) * (bbox2.getD 3 0 - bbox2.getD 1 0)) &&
       decide ((min (bbox1.getD 2 0) (bbox2.getD 2 0) - max (bbox1.getD 0 0) (bbox2.getD 0 0)) *
         (min (bbox1.getD 3 0) (bbox2.getD 3 0) - max (bbox1.getD 1 0) (bbox2.getD 1 0)) /
         min ((bbox1.getD 2 0 - bbox1.getD 0 0) * (bbox1.getD 3 0 - bbox1.getD 1 0))
           ((bbox2.getD 2 0 - bbox2.getD 0 0) * (bbox2.getD 3 0 - bbox2.getD 1 0)) ≥ t)) := by
  unfold _bbox_overlap
  by_cases hg : bbox1.isEmpty = true ∨ bbox2.isEmpty = true ∨
      bbox1.length < 4 ∨ bbox2.length < 4
  · rw [if_pos hg, decide_eq_false (not_not_intro hg)]
    simp only [Bool.false_and]
  · rw [if_neg hg, decide_eq_true hg]
    dsimp only
    by_cases hx : min (bbox1.getD 2 0) (bbox2.getD 2 0) -
        max (bbox1.getD 0 0) (bbox2.getD 0 0) ≤ 0
    · rw [if_pos (Or.inl (max_le le_rfl hx)), decide_eq_false (not_lt.mpr hx)]
      simp only [Bool.true_and, Bool.false_and]
    · by_cases hy : min (bbox1.getD 3 0) (bbox2.getD 3 0) -
          max (bbox1.getD 1 0) (bbox2.getD 1 0) ≤ 0
      · rw [if_pos (Or.inr (max_le le_rfl hy)), decide_eq_false (not_lt.mpr hy)]
        simp only [Bool.true_and, Bool.and_false, Bool.false_and]
      · rw [if_neg (fun h => h.elim
          (fun h1 => hx ((le_max_right 0 _).trans h1))
          (fun h1 => hy ((le_max_right 0 _).trans h1)))]
        simp only [max_eq_right (le_of_not_le hx), max_eq_right (le_of_not_le hy)]
        by_cases hA : (bbox1.getD 2 0 - bbox1.getD 0 0) * (bbox1.getD 3 0 - bbox1.getD 1 0) ≤ 0
        · rw [if_pos (Or.inl hA), decide_eq_false (not_lt.mpr hA)]
          simp only [Bool.true_and, Bool.and_false, Bool.false_and]
        · by_cases hB : (bbox2.getD 2 0 - bbox2.getD 0 0) *
              (bbox2.getD 3 0 - bbox2.getD 1 0) ≤ 0
          · rw [if_pos (Or.inr hB), decide_eq_false (not_lt.mpr hB)]
            simp only [Bool.true_and, Bool.and_false, Bool.false_and]
          · rw [if_neg (by tauto), decide_eq_true (not_le.mp hx),
              decide_eq_true (not_le.mp hy), decide_eq_true (not_le.mp hA),
              decide_eq_true (not_le.mp hB)]
            simp only [Bool.true_and]

/-- C8: `_bbox_overlap` is symmetric in its two box arguments, for every
pair of boxes and every threshold. -/
theorem bbox_overlap_comm (bbox1 bbox2 : List ℚ) (t : ℚ) :
    _bbox_overlap bbox1 bbox2 t = _bbox_overlap bbox2 bbox1 t := by
  rw [_bbox_overlap_eq, _bbox_overlap_eq]
  have g : (decide ¬(bbox1.isEmpty = true ∨ bbox2.isEmpty = true ∨
      bbox1.length < 4 ∨ bbox2.length < 4)) =
      (decide ¬(bbox2.isEmpty = true ∨ bbox1.isEmpty = true ∨
        bbox2.length < 4 ∨ bbox1.length < 4)) :=
    decide_eq_decide.mpr (by tauto)
  have x : (decide (0 < min (bbox1.getD 2 0) (bbox2.getD 2 0) -
      max (bbox1.getD 0 0) (bbox2.getD 0 0))) =
      (decide (0 < min (bbox2.getD 2 0) (bbox1.getD 2 0) -
        max (bbox2.getD 0 0) (bbox1.getD 0 0))) :=
    decide_eq_decide.mpr (by rw [min_comm, max_comm])
  have y : (decide (0 < min (bbox1.getD 3 0) (bbox2.getD 3 0) -
      max (bbox1.getD 1 0) (bbox2.getD 1 0))) =
      (decide (0 < min (bbox2.getD 3 0) (bbox1.getD 3 0) -
        max (bbox2.getD 1 0) (bbox1.getD 1 0))) :=
    decide_eq_decide.mpr (by rw [min_comm, max_comm])
  have r : (decide ((min (bbox1.getD 2 0) (bbox2.getD 2 0) -
      max (bbox1.getD 0 0) (bbox2.getD 0 0)) *
      (min (bbox1.getD 3 0) (bbox2.getD 3 0) - max (bbox1.getD 1 0) (bbox2.getD 1 0)) /
      min ((bbox1.getD 2 0 - bbox1.getD 0 0) * (bbox1.getD 3 0 - bbox1.getD 1 0))
        ((bbox2.getD 2 0 - bbox2.getD 0 0) * (bbox2.getD 3 0 - bbox2.getD 1 0)) ≥ t)) =
      (decide ((min (bbox2.getD 2 0) (bbox1.getD 2 0) -
        max (bbox2.getD 0 0) (bbox1.getD 0 0)) *
        (min (bbox2.getD 3 0) (bbox1.getD 3 0) - max (bbox2.getD 1 0) (bbox1.getD 1 0)) /
        min ((bbox2.getD 2 0 - bbox2.getD 0 0) * (bbox2.getD 3 0 - bbox2.getD 1 0))
          ((bbox1.getD 2 0 - bbox1.getD 0 0) * (bbox1.getD 3 0 - bbox1.getD 1 0)) ≥ t)) :=
    decide_eq_decide.mpr (by
      rw [min_comm (bbox1.getD 2 0), max_comm (bbox1.getD 0 0),
        min_comm (bbox1.getD 3 0), max_comm (bbox1.getD 1 0),
        min_comm ((bbox1.getD 2 0 - bbox1.getD 0 0) * (bbox1.getD 3 0 - bbox1.getD 1 0))])
  rw [g, x, y, r]
  generalize (decide ¬(bbox2.isEmpty = true ∨ bbox1.isEmpty = true ∨
      bbox2.length < 4 ∨ bbox1.length < 4)) = gb
  generalize (decide (0 < min (bbox2.getD 2 0) (bbox1.getD 2 0) -
      max (bbox2.getD 0 0) (bbox1.getD 0 0))) = xb
  generalize (decide (0 < min (bbox2.getD 3 0) (bbox1.getD 3 0) -
      max (bbox2.getD 1 0) (bbox1.getD 1 0))) = yb
  generalize (decide (0 < (bbox1.getD 2 0 - bbox1.getD 0 0) *
      (bbox1.getD 3 0 - bbox1.getD 1 0))) = p
  generalize (decide (0 < (bbox2.getD 2 0 - bbox2.getD 0 0) *
      (bbox2.getD 3 0 - bbox2.getD 1 0))) = q
  generalize (decide ((min (bbox2.getD 2 0) (bbox1.getD 2 0) -
      max (bbox2.getD 0 0) (bbox1.getD 0 0)) *
      (min (bbox2.getD 3 0) (bbox1.getD 3 0) - max (bbox2.getD 1 0) (bbox1.getD 1 0)) /
      min ((bbox2.getD 2 0 - bbox2.getD 0 0) * (bbox2.getD 3 0 - bbox2.getD 1 0))
        ((bbox1.getD 2 0 - bbox1.getD 0 0) * (bbox1.getD 3 0 - bbox1.getD 1 0)) ≥ t)) = rb
  cases gb <;> cases xb <;> cases yb <;> cases p <;> cases q <;> cases rb <;> rfl

/-! ### C2: the table-validator contract as the specification words it -/

/-- A "non-empty cell" in the uniform reading of the claim: a cell with
content after stripping (blank cells do not count). -/
def _cell_nonblank (cell : String) : Bool := _py_strip cell ≠ ""

/-- Number of non-empty cells of a row, in the claim's reading. -/
def _spec_row_count (row : List String) : Nat := (row.filter _cell_nonblank).length

/-- Rows with at least 2 non-empty cells, in the claim's reading. -/
def _spec_multi_rows (g : List (List String)) : Nat :=
  (g.filter (fun row => 2 ≤ _spec_row_count row)).length

/-- The claim's list-like test: a row with at least 2 cells whose first cell
exceeds 50 characters and with at most one other non-empty cell. -/
def _spec_list_like_row (row : List String) : Bool :=
  2 ≤ row.length && 50 < (_py_strip (row.headD "")).length &&
    (row.tail.filter _cell_nonblank).length ≤ 1

/-- Count of the claim's list-like rows. -/
def _spec_list_like (g : List (List String)) : Nat :=
  (g.filter _spec_list_like_row).length

/-- Total number of non-empty cells, in the claim's reading. -/
def _spec_total (g : List (List String)) : Nat := (g.map _spec_row_count).sum

/-- Non-empty cells exceeding 100 characters, in the claim's reading. -/
def _spec_long (g : List (List String)) : Nat :=
  (g.map (fun row =>
    (row.filter (fun c => _cell_nonblank c && 100 < (_py_strip c).length)).length)).sum

/-- The validator exactly as claim C2 words it: accept iff all five checks
pass (at least 3 rows; at most 2 distinct row lengths; maximum row length
not 1; rows with ≥ 2 non-empty cells at least 50% of all rows; at most 60%
list-like rows; at most 70% of non-empty cells longer than 100 characters),
with "non-empty" read uniformly as non-blank after stripping. -/
def validate_spec (g : List (List String)) : Bool :=
  decide (3 ≤ g.length) &&
  decide ((g.map List.length).dedup.length ≤ 2) &&
  decide (_max_cols g ≠ 1) &&
  decide ((1 : ℚ)/2 ≤ (_spec_multi_rows g : ℚ) / g.length) &&
  decide ((_spec_list_like g : ℚ) / g.length ≤ 3/5) &&
  decide ((_spec_long g : ℚ) / (_spec_total g : ℚ) ≤ 7/10)

/-- The amended list-like test: as the claim's, except that the "other"
cells counted are those non-empty as raw strings (before stripping), as in
the source's `[cell.strip() for cell in row[1:] if cell]`. -/
def _amended_list_like_row (row : List String) : Bool :=
  2 ≤ row.length && 50 < (_py_strip (row.headD "")).length &&
    (row.tail.filter (fun c => c ≠ "")).length ≤ 1

/-- Count of amended list-like rows. -/
def _amended_list_like (g : List (List String)) : Nat :=
  (g.filter _amended_list_like_row).length

/-- The amended validator contract: claim C2's five checks with the
list-like test counting raw non-empty other cells. -/
def validate_amended (g : List (List String)) : Bool :=
  decide (3 ≤ g.length) &&
  decide ((g.map List.length).dedup.length ≤ 2) &&
  decide (_max_cols g ≠ 1) &&
  decide ((1 : ℚ)/2 ≤ (_spec_multi_rows g : ℚ) / g.length) &&
  decide ((_amended_list_like g : ℚ) / g.length ≤ 3/5) &&
  decide ((_spec_long g : ℚ) / (_spec_total g : ℚ) ≤ 7/10)

/-- A first cell of 51 letters padded with blanks. -/
def _cex_c : String := String.mk (List.replicate 51 'a' ++ List.replicate 50 ' ')

/-- A cell of 101 blanks. -/
def _cex_sp : String := String.mk (List.replicate 101 ' ')

/-- The counterexample row `[c, sp, sp, "x"]`. -/
def _cex_row : List String := [_cex_c, _cex_sp, _cex_sp, "x"]

/-- The counterexample grid: three copies of `_cex_row`. -/
def _cex_grid : List (List String) := [_cex_row, _cex_row, _cex_row]

/-- Acceptance of the validator from integral bounds on the counts (the
rational threshold comparisons of the source follow from the cross
multiplied Nat inequalities). -/
theorem _is_valid_table_true_of (g : List (List String))
    (h1 : 3 ≤ g.length) (h2 : (g.map List.length).dedup.length ≤ 2)
    (h3 : 2 ≤ _max_cols g) (h4 : g.length ≤ 2 * _multi_cell_rows g)
    (h5 : 5 * _list_pattern_count g ≤ 3 * g.length)
    (h6 : 10 * _long_text_cells g ≤ 7 * _total_cells g) :
    _is_valid_table g = true := by
  have hpos : (0 : ℚ) < g.length := by
    have : 0 < g.length := by omega
    exact_mod_cast this
  unfold _is_valid_table
  rw [if_neg (by omega), if_neg (by omega), if_neg (by omega)]
  rw [if_neg (show ¬((_multi_cell_rows g : ℚ) / g.length < 1/2) by
    rw [not_lt, le_div_iff hpos]
    have h4q : ((g.length : ℚ)) ≤ 2 * (_multi_cell_rows g : ℚ) := by exact_mod_cast h4
    linarith)]
  rw [if_neg (show ¬((_list_pattern_count g : ℚ) / g.length > 3/5) by
    rw [not_lt, div_le_iff hpos]
    have h5q : 5 * (_list_pattern_count g : ℚ) ≤ 3 * (g.length : ℚ) := by exact_mod_cast h5
    linarith)]
  rw [if_neg (show ¬(0 < _total_cells g ∧
      (_long_text_cells g : ℚ) / (_total_cells g : ℚ) > 7/10) by
    rintro ⟨ht, hgt⟩
    have htq : (0 : ℚ) < (_total_cells g : ℚ) := by exact_mod_cast ht
    rw [gt_iff_lt, lt_div_iff htq] at hgt
    have h6q : 10 * (_long_text_cells g : ℚ) ≤ 7 * (_total_cells g : ℚ) := by exact_mod_cast h6
    linarith)]

/-- C2 counterexample: the source accepts this grid while the claim's five
checks (under either uniform reading of "non-empty") reject it — the rows
are list-like in the claim's sense (one long first cell and a single
non-blank other cell), but not in the source's, which counts the
whitespace-only cells as "other" cells. -/
theorem is_valid_table_spec_counterexample :
    _is_valid_table _cex_grid = true ∧ validate_spec _cex_grid = false := by
  constructor
  · exact _is_valid_table_true_of _cex_grid (by decide) (by decide) (by decide)
      (by decide) (by decide) (by decide)
  · unfold validate_spec
    rw [show _spec_list_like _cex_grid = 3 from by decide,
      show _cex_grid.length = 3 from by decide]
    rw [decide_eq_false (show ¬(((3 : Nat) : ℚ) / ((3 : Nat) : ℚ) ≤ 3/5) by
      push_cast
      rw [div_self (by norm_num : (3 : ℚ) ≠ 0)]
      norm_num)]
    simp only [Bool.and_false, Bool.false_and]

/-- Pointwise: the source's cell test equals the claim's non-blank test. -/
theorem _cell_nonempty_eq : _cell_nonempty = _cell_nonblank := by
  funext c
  by_cases h : c = ""
  · subst h; rfl
  · simp [_cell_nonempty, _cell_nonblank, h]

/-- The two row-count functions agree. -/
theorem _spec_row_count_eq : _spec_row_count = _row_nonempty_count := by
  funext row
  unfold _spec_row_count _row_nonempty_count
  rw [_cell_nonempty_eq]

/-- The claim's multi-cell count equals the source's. -/
theorem _spec_multi_eq (g : List (List String)) : _spec_multi_rows g = _multi_cell_rows g := by
  unfold _spec_multi_rows _multi_cell_rows
  rw [_spec_row_count_eq]

/-- The claim's total-cell count equals the source's. -/
theorem _spec_total_eq (g : List (List String)) : _spec_total g = _total_cells g := by
  unfold _spec_total _total_cells
  rw [_spec_row_count_eq]

/-- The claim's long-cell count equals the source's. -/
theorem _spec_long_eq (g : List (List String)) : _spec_long g = _long_text_cells g := by
  unfold _spec_long _long_text_cells
  rw [_cell_nonempty_eq]

/-- The amended list-like count equals the source's. -/
theorem _amended_list_eq (g : List (List String)) :
    _amended_list_like g = _list_pattern_count g := by
  unfold _amended_list_like _list_pattern_count
  congr 1
  apply List.filter_congr
  intro row _
  unfold _amended_list_like_row _list_like_row
  by_cases h : row.head?.getD "" = "" <;>
    simp [List.headD_eq_head?_getD, h, show _py_strip "" = "" from rfl]

/-- If the maximal row length is 0, every row is empty, so no row has two
non-empty cells. -/
theorem _max_cols_zero_multi (g : List (List String)) (h : _max_cols g = 0) :
    _multi_cell_rows g = 0 := by
  induction g with
  | nil => rfl
  | cons r t ih =>
    have h2 : max r.length (_max_cols t) = 0 := h
    have hr : r.length = 0 := (Nat.max_eq_zero_iff.mp h2).1
    have ht := ih (Nat.max_eq_zero_iff.mp h2).2
    unfold _multi_cell_rows at ht ⊢
    rw [List.filter_cons_of_neg, ht]
    simp only [decide_eq_true_eq, not_le]
    calc _row_nonempty_count r ≤ r.length := List.length_filter_le _ r
    _ = 0 := hr
    _ < 2 := by omega

/-- C2, amended: the source validator accepts a grid exactly when all five
of the claim's checks pass, with the list-like check counting raw non-empty
other cells. -/
theorem is_valid_table_amended_characterization (g : List (List String)) :
    _is_valid_table g = validate_amended g := by
  unfold _is_valid_table validate_amended
  rw [_amended_list_eq, _spec_multi_eq, _spec_total_eq, _spec_long_eq]
  by_cases h1 : g.length < 3
  · rw [if_pos h1, decide_eq_false (by omega : ¬(3 ≤ g.length))]
    simp only [Bool.false_and]
  · rw [if_neg h1, decide_eq_true (by omega : 3 ≤ g.length)]
    by_cases h2 : 2 < (g.map List.length).dedup.length
    · rw [if_pos h2, decide_eq_false (by omega : ¬((g.map List.length).dedup.length ≤ 2))]
      simp only [Bool.true_and, Bool.false_and]
    · rw [if_neg h2, decide_eq_true (by omega : (g.map List.length).dedup.length ≤ 2)]
      by_cases h3 : _max_cols g < 2
      · rw [if_pos h3]
        by_cases h30 : _max_cols g = 0
        · rw [_max_cols_zero_multi g h30]
          rw [decide_eq_false (show ¬((1 : ℚ)/2 ≤ ((0 : Nat) : ℚ) / g.length) by
            push_cast
            rw [zero_div]
            norm_num)]
          simp only [Bool.true_and, Bool.and_false, Bool.false_and]
        · have h31 : _max_cols g = 1 := by omega
          rw [decide_eq_false (show ¬(_max_cols g ≠ 1) by simp [h31])]
          simp only [Bool.true_and, Bool.and_false, Bool.false_and]
      · rw [if_neg h3, decide_eq_true (show _max_cols g ≠ 1 by omega)]
        by_cases h4 : (_multi_cell_rows g : ℚ) / g.length < 1/2
        · rw [if_pos h4, decide_eq_false (not_le.mpr h4)]
          simp only [Bool.true_and, Bool.and_false, Bool.false_and]
        · rw [if_neg h4, decide_eq_true (not_lt.mp h4)]
          by_cases h5 : (_list_pattern_count g : ℚ) / g.length > 3/5
          · rw [if_pos h5, decide_eq_false (not_le.mpr h5)]
            simp only [Bool.true_and, Bool.and_false, Bool.false_and]
          · rw [if_neg h5, decide_eq_true (not_lt.mp h5)]
            by_cases h6 : 0 < _total_cells g ∧
                (_long_text_cells g : ℚ) / (_total_cells g : ℚ) > 7/10
            · rw [if_pos h6, decide_eq_false (not_le.mpr h6.2)]
              simp only [Bool.true_and, Bool.and_false]
            · rw [if_neg h6]
              have h7 : (_long_text_cells g : ℚ) / (_total_cells g : ℚ) ≤ 7/10 := by
                by_cases ht : 0 < _total_cells g
                · exact not_lt.mp (fun hgt => h6 ⟨ht, hgt⟩)
                · have hz : _total_cells g = 0 := by omega
                  rw [hz]
                  push_cast
                  rw [div_zero]
                  norm_num
              rw [decide_eq_true h7]
              simp only [Bool.true_and, Bool.and_true]

/-! ### C4: merge ordering -/

/-- Inserting an element into a list keeps the sublist of any fixed
`y_position` value intact, with the new element in front when it has that
value: the elements skipped by `orderedInsert` are strictly below it. -/
theorem _orderedInsert_filter (a : MergedElem) (l : List MergedElem) (q : ℚ) :
    (l.orderedInsert _merge_le a).filter (fun e => decide (e.y_position = q)) =
      if a.y_position = q then
        a :: l.filter (fun e => decide (e.y_position = q))
      else l.filter (fun e => decide (e.y_position = q)) := by
  induction l with
  | nil =>
    by_cases ha : a.y_position = q <;>
      simp [List.orderedInsert, List.filter_cons, ha]
  | cons b t ih =>
    unfold List.orderedInsert
    by_cases hab : _merge_le a b
    · rw [if_pos hab]
      by_cases ha : a.y_position = q <;> simp [List.filter_cons, ha]
    · rw [if_neg hab]
      have hba : b.y_position < a.y_position := lt_of_not_le hab
      by_cases hb : b.y_position = q
      · have ha : ¬(a.y_position = q) := by
          rw [← hb]
          exact (ne_of_gt hba)
        rw [List.filter_cons_of_pos (by simp [hb]), ih, if_neg ha,
          List.filter_cons_of_pos (by simp [hb]), if_neg ha]
      · rw [List.filter_cons_of_neg (by simp [hb]), ih,
          List.filter_cons_of_neg (by simp [hb])]

/-- The insertion sort used by the merger is stable: the subsequence of
elements at any fixed `y_position` is unchanged. -/
theorem _insertionSort_filter (l : List MergedElem) (q : ℚ) :
    (l.insertionSort _merge_le).filter (fun e => decide (e.y_position = q)) =
      l.filter (fun e => decide (e.y_position = q)) := by
  induction l with
  | nil => rfl
  | cons a t ih =>
    rw [List.insertionSort, _orderedInsert_filter]
    by_cases ha : a.y_position = q
    · rw [if_pos ha, ih, List.filter_cons_of_pos (by simp [ha])]
    · rw [if_neg ha, ih, List.filter_cons_of_neg (by simp [ha])]

/-- C4: the merged page content is sorted by `y_position` in non-decreasing
order; the sort is stable (for every `y` value, the subsequence of elements
at that `y` equals that of the unsorted input, text blocks in detection
order followed by tables in detection order); and text spans at y-positions
`[50, 10, 30]` with no tables come out in the order `y = 10, 30, 50`. -/
theorem merge_page_content_sorted_stable (page_num : Nat)
    (text_blocks : List TextBlockElem) (tables : List TableElem) :
    (merge_page_content page_num text_blocks tables).Sorted _merge_le ∧
    (∀ q : ℚ, (merge_page_content page_num text_blocks tables).filter
        (fun e => decide (e.y_position = q)) =
      (_merge_input page_num text_blocks tables).filter
        (fun e => decide (e.y_position = q))) ∧
    (merge_page_content 0
        [⟨"a", "text", [0, 50, 9, 59], 50, 12, false, 0⟩,
         ⟨"b", "text", [0, 10, 9, 19], 10, 12, false, 1⟩,
         ⟨"c", "text", [0, 30, 9, 39], 30, 12, false, 2⟩] []).map
      MergedElem.y_position = [10, 30, 50] := by
  refine ⟨List.sorted_insertionSort _merge_le _, fun q => _insertionSort_filter _ q, ?_⟩
  decide

/-! ### C1: total-function guarantee of `parse_document_hybrid` -/

/-- C1: when the underlying extraction fails entirely (the document cannot
be opened and read, so the page-count open raises), `parse_document_hybrid`
does not raise: it returns the well-formed error result with
`total_pages = 0`, empty content, all metadata counts zero and the raised
message in `metadata.error`. -/
theorem parse_document_hybrid_total_on_failure (pdf : PdfFile) (e : String)
    (h : pdf.page_count = .error e) :
    parse_document_hybrid pdf =
      { document_name := pdf.name
        content := ""
        total_pages := 0
        parsing_method := "hybrid_error"
        processing_time := 0
        metadata :=
          { total_elements := 0
            text_elements := 0
            table_elements := 0
            pages_processed := 0
            characters_extracted := 0
            error := some e } } := by
  unfold parse_document_hybrid
  rw [h]

/-- Witness for C1 at a concrete unreadable file. -/
theorem parse_document_hybrid_total_on_failure_witness :
    parse_document_hybrid
        ⟨"resume.pdf", .error "io error", .error "io error", .error "cannot open broken file"⟩ =
      ⟨"resume.pdf", "", 0, "hybrid_error", 0, ⟨0, 0, 0, 0, 0, some "cannot open broken file"⟩⟩ :=
  parse_document_hybrid_total_on_failure
    ⟨"resume.pdf", .error "io error", .error "io error", .error "cannot open broken file"⟩
    "cannot open broken file" rfl

/-! ### C7: failure containment in the extraction loops -/

/-- A raw table whose `extract()` succeeds with a clean 3×2 grid. -/
def _tdata : List (List (Option String)) :=
  [[some "a", some "b"], [some "c", some "d"], [some "e", some "f"]]

/-- A raw table that extracts successfully. -/
def _good_table : PTable := ⟨[0, 0, 10, 10], .ok _tdata⟩

/-- A page whose `find_tables` succeeds with one good table. -/
def _good_page : PPage := ⟨.ok [_good_table]⟩

/-- A page whose `find_tables` raises. -/
def _bad_page : PPage := ⟨.error "find_tables raised"⟩

/-- C7 counterexample: with a first page on which the table primitive
raises followed by a perfectly good page, the extractor returns nothing at
all — the good page, which on its own contributes a table, is never
processed, so a single-page primitive failure is *not* contained at the
page boundary. -/
theorem extract_tables_page_failure_counterexample :
    extract_tables_with_pdfplumber (.ok [_bad_page, _good_page]) = [] ∧
      extract_tables_with_pdfplumber (.ok [_good_page]) ≠ [] := by
  have hc : _cleaned_data _tdata = [["a", "b"], ["c", "d"], ["e", "f"]] := by decide
  have hval : _is_valid_table [["a", "b"], ["c", "d"], ["e", "f"]] = true :=
    _is_valid_table_true_of _ (by decide) (by decide) (by decide) (by decide)
      (by decide) (by decide)
  have hproc : _process_ptable _good_table ≠ none := by
    unfold _process_ptable _good_table
    dsimp only
    rw [if_neg (by decide : ¬(_tdata.isEmpty = true ∨ _tdata.length < 2)), hc,
      if_neg (by decide :
        ¬(([["a", "b"], ["c", "d"], ["e", "f"]] : List (List String)).length < 2)),
      hval]
    rw [if_neg (by simp)]
    simp
  obtain ⟨el, hel⟩ := Option.ne_none_iff_exists'.mp hproc
  constructor
  · rfl
  · show _tables_go [_good_page] 0 ≠ []
    unfold _tables_go _good_page
    dsimp only
    rw [List.filterMap_cons, hel]
    simp

/-- C7, amended: a failing per-table `extract()` is contained at the table
boundary (that table contributes nothing, everything else is unaffected),
but a raise of the page-level primitive (`find_tables` or `get_text`) is
caught at the document boundary: pages before the failing one keep their
elements, while the failing page and every later page contribute nothing. -/
theorem extract_failure_containment_amended :
    (∀ (t : PTable) (err : String) (ts1 ts2 : List PTable), t.extract = .error err →
      (ts1 ++ t :: ts2).filterMap _process_ptable = (ts1 ++ ts2).filterMap _process_ptable) ∧
    (∀ (good rest : List PPage) (bad : PPage) (e : String) (n : Nat),
      bad.find_tables = .error e →
      (∀ p ∈ good, ∃ ts, p.find_tables = .ok ts) →
      _tables_go (good ++ bad :: rest) n = _tables_go good n) ∧
    (∀ (pt : List (Nat × List TableElem)) (good rest : List FPage) (bad : FPage)
      (e : String) (n : Nat),
      bad.get_text = .error e →
      (∀ p ∈ good, ∃ bs, p.get_text = .ok bs) →
      _text_go pt (good ++ bad :: rest) n = _text_go pt good n) := by
  refine ⟨?_, ?_, ?_⟩
  · intro t err ts1 ts2 ht
    have hnone : _process_ptable t = none := by
      unfold _process_ptable
      rw [ht]
    rw [List.filterMap_append, List.filterMap_append, List.filterMap_cons, hnone]
  · intro good rest bad e n hbad hgood
    induction good generalizing n with
    | nil =>
      show _tables_go (bad :: rest) n = _tables_go [] n
      unfold _tables_go
      rw [hbad]
    | cons p t ih =>
      obtain ⟨ts, hts⟩ := hgood p (by simp)
      show _tables_go (p :: (t ++ bad :: rest)) n = _tables_go (p :: t) n
      unfold _tables_go
      rw [hts, ih (n + 1) (fun q hq => hgood q (List.mem_cons_of_mem p hq))]
  · intro pt good rest bad e n hbad hgood
    induction good generalizing n with
    | nil =>
      show _text_go pt (bad :: rest) n = _text_go pt [] n
      unfold _text_go
      rw [hbad]
    | cons p t ih =>
      obtain ⟨bs, hbs⟩ := hgood p (by simp)
      show _text_go pt (p :: (t ++ bad :: rest)) n = _text_go pt (p :: t) n
      unfold _text_go
      rw [hbs, ih (n + 1) (fun q hq => hgood q (List.mem_cons_of_mem p hq))]

/-- Witness for C7's amended containment at concrete pages and tables. -/
theorem extract_failure_containment_amended_witness :
    ((([] : List PTable) ++ ⟨[0, 0, 1, 1], Except.error "extract raised"⟩ ::
        [_good_table]).filterMap _process_ptable =
      (([] : List PTable) ++ [_good_table]).filterMap _process_ptable) ∧
    (_tables_go ([_good_page] ++ _bad_page :: [_good_page]) 0 = _tables_go [_good_page] 0) ∧
    (_text_go [] ([⟨Except.ok []⟩] ++
        (⟨Except.error "get_text raised"⟩ : FPage) :: [⟨Except.ok []⟩]) 0 =
      _text_go [] [(⟨Except.ok []⟩ : FPage)] 0) :=
  ⟨extract_failure_containment_amended.1 ⟨[0, 0, 1, 1], .error "extract raised"⟩
     "extract raised" [] [_good_table] rfl,
   extract_failure_containment_amended.2.1 [_good_page] [_good_page] _bad_page
     "find_tables raised" 0 rfl
     (fun p hp => by
       rw [List.mem_singleton] at hp
       subst hp
       exact ⟨[_good_table], rfl⟩),
   extract_failure_containment_amended.2.2 [] [⟨Except.ok []⟩] [⟨Except.ok []⟩]
     ⟨Except.error "get_text raised"⟩ "get_text raised" 0 rfl
     (fun p hp => by
       rw [List.mem_singleton] at hp
       subst hp
       exact ⟨[], rfl⟩)⟩

/-! ### C6: single-letter tokens -/

/-- C6 counterexample: on `"Skills: Go, R, C"` the extractor keeps only
`"Go"` — the bare single-letter tokens `"R"` and `"C"` are rejected by the
acceptance heuristic (no punctuation, no digit, length 1), contrary to the
claim that all three are returned. -/
theorem extract_skills_single_letter_counterexample :
    extract_skills_from_text "Skills: Go, R, C" = ["Go"] ∧
      ("R" : String) ∉ extract_skills_from_text "Skills: Go, R, C" ∧
      ("C" : String) ∉ extract_skills_from_text "Skills: Go, R, C" := by
  refine ⟨by decide, by decide, by decide⟩

/-- C6, amended: the acceptance heuristic rejects every bare single-letter
token, including meaningful ones — on `"Skills: Go, R, C"` only `"Go"`
survives; single-letter names are kept only when punctuation or a digit
attaches to them, as in `"Skills: Go, C++, C#"`. -/
theorem extract_skills_single_letter_amended :
    extract_skills_from_text "Skills: Go, R, C" = ["Go"] ∧
      extract_skills_from_text "Skills: Go, C++, C#" = ["Go", "C++", "C#"] := by
  refine ⟨by decide, by decide⟩

/-! ### C5: token idempotence -/

/-- C5 counterexample: re-feeding the rendered token list through the
extractor does not reproduce the token set — the rendered line
`"Python, AWS"` carries no skills-heading cue, so the second pass extracts
nothing at all. -/
theorem extract_skills_refeed_counterexample :
    extract_skills_from_text "Skills: Python, AWS" = ["Python", "AWS"] ∧
      extract_skills_from_text
        (String.intercalate ", " (extract_skills_from_text "Skills: Python, AWS")) = [] := by
  refine ⟨by decide, by decide⟩

/-! ### C9: the shape of cleaned tokens -/

/-- `_strip_while` is a left `dropWhile` followed by a right `rdropWhile`. -/
theorem _strip_while_def (p : Char → Bool) (l : List Char) :
    _strip_while p l = List.rdropWhile p (l.dropWhile p) := rfl

/-- The first and last characters surviving `_strip_while` fail the
predicate. -/
theorem _strip_while_cons_facts (p : Char → Bool) (l : List Char) (x : Char) (xs : List Char)
    (h : _strip_while p l = x :: xs) :
    p x = false ∧ p ((x :: xs).getLast (List.cons_ne_nil x xs)) = false := by
  have h' : List.rdropWhile p (List.dropWhile p l) = x :: xs := h
  constructor
  · obtain ⟨t, ht⟩ := ( List.rdropWhile_prefix p (l.dropWhile p))
    rw [h'] at ht
    have hne : l.dropWhile p ≠ [] := by
      rw [← ht]
      simp
    have hhd := List.head_dropWhile_not p l hne
    have hx : (l.dropWhile p).head hne = x := by
      have hdw : l.dropWhile p = x :: (xs ++ t) := by
        rw [← ht]
        rfl
      simp [hdw]
    rw [hx] at hhd
    simpa using hhd
  · have hne : List.rdropWhile p (List.dropWhile p l) ≠ [] := by
      rw [h']
      simp
    have hlast := List.rdropWhile_last_not p (List.dropWhile p l) hne
    rw [List.getLast_congr hne (List.cons_ne_nil x xs) h'] at hlast
    simpa using hlast

/-- A list whose first and last characters fail the predicate is unchanged
by `_strip_while`. -/
theorem _strip_while_eq_self (p : Char → Bool) (l : List Char)
    (hh : ∀ x xs, l = x :: xs → p x = false)
    (hl : ∀ h : l ≠ [], p (l.getLast h) = false) : _strip_while p l = l := by
  rw [_strip_while_def]
  have h1 : l.dropWhile p = l := by
    cases l with
    | nil => rfl
    | cons x xs => rw [List.dropWhile_cons_of_neg (by simp [hh x xs rfl])]
  rw [h1]
  rw [List.rdropWhile_eq_self_iff]
  intro hne
  simp [hl hne]

/-- An allowed token character is not whitespace. -/
theorem _allowed_not_ws (c : Char) (h : _allowed_char c = true) : _py_ws c = false := by
  by_cases h1 : c = ' '
  · subst h1; exact absurd h (by decide)
  by_cases h2 : c = '\t'
  · subst h2; exact absurd h (by decide)
  by_cases h3 : c = '\n'
  · subst h3; exact absurd h (by decide)
  by_cases h4 : c = '\r'
  · subst h4; exact absurd h (by decide)
  by_cases h5 : c = '\x0b'
  · subst h5; exact absurd h (by decide)
  by_cases h6 : c = '\x0c'
  · subst h6; exact absurd h (by decide)
  simp [_py_ws, h1, h2, h3, h4, h5, h6]

/-- The character list of a cleaned token, by definition. -/
theorem _token_clean_data (tok : String) :
    (_token_clean tok).data =
      _strip_while (fun c => !_allowed_char c) (_strip_while _py_ws tok.data) := rfl

/-- Cleaning produces either the empty token or one that starts and ends
with an allowed character. -/
theorem _token_clean_shape (tok : String) :
    _token_clean tok = "" ∨
      ∃ x xs, (_token_clean tok).data = x :: xs ∧ _allowed_char x = true ∧
        _allowed_char ((x :: xs).getLast (List.cons_ne_nil x xs)) = true := by
  cases hr : _strip_while (fun c => !_allowed_char c) (_strip_while _py_ws tok.data) with
  | nil =>
    left
    apply String.ext
    rw [_token_clean_data, hr]
  | cons x xs =>
    right
    obtain ⟨hx, hlast⟩ := _strip_while_cons_facts _ _ x xs hr
    exact ⟨x, xs, (_token_clean_data tok).trans hr, by simpa using hx, by simpa using hlast⟩

/-- Cleaning an already-cleaned token changes nothing. -/
theorem _token_clean_idem (tok : String) :
    _token_clean (_token_clean tok) = _token_clean tok := by
  apply String.ext
  rw [_token_clean_data]
  rcases _token_clean_shape tok with h | ⟨x, xs, hd, hx, hlast⟩
  · rw [h]
    rfl
  · rw [hd]
    rw [_strip_while_eq_self _py_ws (x :: xs)
      (by
        intro y ys hyz
        cases hyz
        exact _allowed_not_ws x hx)
      (fun _ => _allowed_not_ws _ hlast)]
    rw [_strip_while_eq_self (fun c => !_allowed_char c) (x :: xs)
      (by
        intro y ys hyz
        cases hyz
        simp [hx])
      (fun _ => by simp [hlast])]

/-- Every token produced by the filtering loop is the cleaning of one of
the raw parts, is non-empty, passes the acceptance heuristic, is not a
stopword, and its key is not in the incoming `seen` set. -/
theorem _filter_tokens_mem : ∀ (ps seen : List String) (tok : String),
    tok ∈ _filter_tokens ps seen →
    ∃ p ∈ ps, tok = _token_clean p ∧ tok ≠ "" ∧ _accept_token tok = true ∧
      STOPWORDS.contains (_py_lower tok) = false ∧
      seen.contains (_py_lower tok) = false := by
  intro ps
  induction ps with
  | nil =>
    intro seen tok h
    simp [_filter_tokens] at h
  | cons p ps ih =>
    intro seen tok h
    rw [_filter_tokens] at h
    by_cases h1 : _token_clean p = ""
    · rw [if_pos h1] at h
      obtain ⟨q, hq, rest⟩ := ih seen tok h
      exact ⟨q, List.mem_cons_of_mem p hq, rest⟩
    · rw [if_neg h1] at h
      by_cases h2 : STOPWORDS.contains (_py_lower (_token_clean p)) = true
      · rw [if_pos h2] at h
        obtain ⟨q, hq, rest⟩ := ih seen tok h
        exact ⟨q, List.mem_cons_of_mem p hq, rest⟩
      · rw [if_neg h2] at h
        by_cases h3 : (_accept_token (_token_clean p) &&
            !seen.contains (_py_lower (_token_clean p))) = true
        · rw [if_pos h3] at h
          rcases List.mem_cons.mp h with heq | hmem
          · subst heq
            rw [Bool.and_eq_true] at h3
            refine ⟨p, List.mem_cons_self p ps, rfl, h1, h3.1, ?_, ?_⟩
            · exact eq_false_of_ne_true h2
            · simpa using h3.2
          · obtain ⟨q, hq, heq, hne, hacc, hstop, hseen⟩ :=
              ih (_py_lower (_token_clean p) :: seen) tok hmem
            refine ⟨q, List.mem_cons_of_mem p hq, heq, hne, hacc, hstop, ?_⟩
            rw [List.contains_cons] at hseen
            exact (Bool.or_eq_false_iff.mp hseen).2
        · rw [if_neg h3] at h
          obtain ⟨q, hq, rest⟩ := ih seen tok h
          exact ⟨q, List.mem_cons_of_mem p hq, rest⟩

/-- The lowercase keys of the filtered tokens avoid `seen` and are pairwise
distinct. -/
theorem _filter_tokens_keys : ∀ (ps seen : List String),
    (∀ k ∈ (_filter_tokens ps seen).map _py_lower, seen.contains k = false) ∧
    ((_filter_tokens ps seen).map _py_lower).Nodup := by
  intro ps
  induction ps with
  | nil =>
    intro seen
    refine ⟨fun k hk => ?_, by simp [_filter_tokens]⟩
    simp [_filter_tokens] at hk
  | cons p ps ih =>
    intro seen
    rw [_filter_tokens]
    by_cases h1 : _token_clean p = ""
    · rw [if_pos h1]
      exact ih seen
    · rw [if_neg h1]
      by_cases h2 : STOPWORDS.contains (_py_lower (_token_clean p)) = true
      · rw [if_pos h2]
        exact ih seen
      · rw [if_neg h2]
        by_cases h3 : (_accept_token (_token_clean p) &&
            !seen.contains (_py_lower (_token_clean p))) = true
        · rw [if_pos h3]
          rw [Bool.and_eq_true] at h3
          have hseen : seen.contains (_py_lower (_token_clean p)) = false := by
            simpa using h3.2
          constructor
          · intro k hk
            rw [List.map_cons, List.mem_cons] at hk
            rcases hk with hk | hk
            · rw [hk]
              exact hseen
            · have := (ih (_py_lower (_token_clean p) :: seen)).1 k hk
              rw [List.contains_cons] at this
              exact (Bool.or_eq_false_iff.mp this).2
          · rw [List.map_cons, List.nodup_cons]
            refine ⟨fun hk => ?_, (ih (_py_lower (_token_clean p) :: seen)).2⟩
            have := (ih (_py_lower (_token_clean p) :: seen)).1 _ hk
            rw [List.contains_cons] at this
            have h0 := (Bool.or_eq_false_iff.mp this).1
            simp at h0
        · rw [if_neg h3]
          exact ih seen

/-- C9: `_token_clean` is idempotent, and every token returned by
`extract_skills_from_text` is a fixpoint of `_token_clean`: it is non-empty
and begins and ends with a letter, digit, or one of `#`, `+`, `.`, `/`,
`-`. -/
theorem token_clean_idempotent_and_fixpoint :
    (∀ tok : String, _token_clean (_token_clean tok) = _token_clean tok) ∧
    (∀ (text tok : String), tok ∈ extract_skills_from_text text →
      _token_clean tok = tok ∧ tok ≠ "" ∧
      ∃ x xs, tok.data = x :: xs ∧ _allowed_char x = true ∧
        _allowed_char ((x :: xs).getLast (List.cons_ne_nil x xs)) = true) := by
  refine ⟨_token_clean_idem, ?_⟩
  intro text tok h
  unfold extract_skills_from_text at h
  by_cases ht : text = ""
  · rw [if_pos ht] at h
    simp at h
  · rw [if_neg ht] at h
    obtain ⟨p, _, heq, hne, _, _, _⟩ := _filter_tokens_mem _ _ tok h
    refine ⟨?_, hne, ?_⟩
    · rw [heq]
      exact _token_clean_idem p
    · rcases _token_clean_shape p with h0 | ⟨x, xs, hd, hx, hl⟩
      · rw [← heq] at h0
        exact absurd h0 hne
      · rw [← heq] at hd
        exact ⟨x, xs, hd, hx, hl⟩

/-- Witness for C9 at a concrete extraction. -/
theorem token_clean_idempotent_and_fixpoint_witness :
    ("Python" ∈ extract_skills_from_text "Skills: Python, AWS") ∧
      (_token_clean "Python" = "Python" ∧ ("Python" : String) ≠ "" ∧
        ∃ x xs, ("Python" : String).data = x :: xs ∧ _allowed_char x = true ∧
          _allowed_char ((x :: xs).getLast (List.cons_ne_nil x xs)) = true) :=
  ⟨by decide,
   token_clean_idempotent_and_fixpoint.2 "Skills: Python, AWS" "Python" (by decide)⟩

/-! ### C5: re-feeding the rendered token list -/

/-- The default value of `getLastD` is irrelevant on non-empty lists. -/
theorem _getLastD_indep {α : Type} (l : List α) (h : l ≠ []) (a b : α) :
    l.getLastD a = l.getLastD b := by
  cases l with
  | nil => exact absurd rfl h
  | cons c cs => rw [List.getLastD_cons, List.getLastD_cons]

/-- `getLastD` of an append with non-empty right part. -/
theorem _getLastD_append {α : Type} (l1 l2 : List α) (d : α) (h : l2 ≠ []) :
    (l1 ++ l2).getLastD d = l2.getLastD d := by
  induction l1 generalizing d with
  | nil => rfl
  | cons x xs ih =>
    rw [List.cons_append, List.getLastD_cons, ih x]
    exact _getLastD_indep l2 h x d

/-- `getLastD` of a non-empty list is a member. -/
theorem _getLastD_mem {α : Type} (l : List α) (h : l ≠ []) (d : α) : l.getLastD d ∈ l := by
  induction l generalizing d with
  | nil => exact absurd rfl h
  | cons x xs ih =>
    rw [List.getLastD_cons]
    cases xs with
    | nil => simp
    | cons y ys => exact List.mem_cons_of_mem x (ih (List.cons_ne_nil y ys) x)

/-- Characters surviving `_strip_while` come from the input. -/
theorem _strip_while_subset (p : Char → Bool) (l : List Char) (c : Char)
    (h : c ∈ _strip_while p l) : c ∈ l := by
  unfold _strip_while at h
  rw [List.mem_reverse] at h
  have h2 := List.Sublist.subset (List.dropWhile_sublist p) h
  rw [List.mem_reverse] at h2
  exact List.Sublist.subset (List.dropWhile_sublist p) h2

/-- Appending on the left of the `String.intercalate` worker. -/
theorem _intercalate_go_append (ts : List String) (a b sep : String) :
    String.intercalate.go (a ++ b) sep ts = a ++ String.intercalate.go b sep ts := by
  induction ts generalizing b with
  | nil => rfl
  | cons c cs ih =>
    show String.intercalate.go (a ++ b ++ sep ++ c) sep cs =
      a ++ String.intercalate.go (b ++ sep ++ c) sep cs
    rw [String.append_assoc (a ++ b), String.append_assoc a b, ← String.append_assoc b]
    exact ih (b ++ sep ++ c)

/-- The two-element unfolding of `String.intercalate`. -/
theorem _intercalate_cons₂ (sep t c : String) (cs : List String) :
    String.intercalate sep (t :: c :: cs) =
      t ++ sep ++ String.intercalate sep (c :: cs) := by
  show String.intercalate.go (t ++ sep ++ c) sep cs = t ++ sep ++ String.intercalate.go c sep cs
  exact _intercalate_go_append cs (t ++ sep) c sep

/-- Characters of an intercalation come from the pieces or the separator. -/
theorem _intercalate_chars (sep : String) (l : List String) (c : Char)
    (h : c ∈ (String.intercalate sep l).data) :
    (∃ s ∈ l, c ∈ s.data) ∨ c ∈ sep.data := by
  induction l with
  | nil => simp [String.intercalate] at h
  | cons t ts ih =>
    cases ts with
    | nil =>
      left
      exact ⟨t, by simp, h⟩
    | cons u us =>
      rw [_intercalate_cons₂, String.data_append, String.data_append] at h
      rw [List.mem_append, List.mem_append] at h
      rcases h with (h | h) | h
      · exact Or.inl ⟨t, by simp, h⟩
      · exact Or.inr h
      · rcases ih h with ⟨s, hs, hc⟩ | h
        · exact Or.inl ⟨s, List.mem_cons_of_mem t hs, hc⟩
        · exact Or.inr h

/-- The last character of an intercalation of non-empty pieces is the last
character of the last piece. -/
theorem _intercalate_getLastD (sep : String) (t : String) (ts : List String)
    (hne : ∀ s ∈ t :: ts, s.data ≠ []) (d : Char) :
    (String.intercalate sep (t :: ts)).data ≠ [] ∧
      (String.intercalate sep (t :: ts)).data.getLastD d =
        ((t :: ts).getLast (List.cons_ne_nil t ts)).data.getLastD d := by
  induction ts generalizing t with
  | nil => exact ⟨hne t (by simp), rfl⟩
  | cons u us ih =>
    have hu := ih u (fun s hs => hne s (List.mem_cons_of_mem t hs))
    rw [_intercalate_cons₂, String.data_append, String.data_append]
    constructor
    · simp only [ne_eq, List.append_eq_nil]
      intro ⟨_, h2⟩
      exact hu.1 h2
    · rw [List.append_assoc, _getLastD_append _ _ _ (by
        simp only [ne_eq, List.append_eq_nil, not_and]
        intro _
        exact hu.1)]
      rw [_getLastD_append _ _ _ hu.1, hu.2]
      rw [List.getLast_cons (List.cons_ne_nil u us)]

/-- On line-break-free input the line splitter returns the single line. -/
theorem _splitlines_go_no_lb : ∀ (fuel : Nat) (l acc : List Char), l.length ≤ fuel →
    (∀ c ∈ l, _is_linebreak c = false) →
    _splitlines_go fuel l acc =
      if (acc.reverse ++ l).isEmpty then [] else [String.mk (acc.reverse ++ l)] := by
  intro fuel
  induction fuel with
  | zero =>
    intro l acc hl _
    cases l with
    | nil =>
      rw [_splitlines_go, List.append_nil]
      by_cases h : acc = []
      · subst h
        rfl
      · rw [if_neg (by simp [h]), if_neg (by simp [h])]
    | cons c cs => simp at hl
  | succ fuel ih =>
    intro l acc hl hlb
    cases l with
    | nil =>
      rw [_splitlines_go, List.append_nil]
      by_cases h : acc = []
      · subst h
        rfl
      · rw [if_neg (by simp [h]), if_neg (by simp [h])]
    | cons c cs =>
      have hc : _is_linebreak c = false := hlb c (by simp)
      rw [_splitlines_go]
      rw [if_neg (by
        rintro ⟨h1, -⟩
        subst h1
        exact absurd hc (by decide))]
      rw [if_neg (by simp [hc])]
      rw [ih cs (c :: acc) (by simpa using hl)
        (fun d hd => hlb d (List.mem_cons_of_mem c hd))]
      rw [List.reverse_cons, List.append_assoc, List.singleton_append]

/-- Lines produced by the splitter contain no line-break characters. -/
theorem _splitlines_no_lb : ∀ (fuel : Nat) (l acc : List Char),
    (∀ c ∈ acc, _is_linebreak c = false) →
    ∀ line ∈ _splitlines_go fuel l acc, ∀ c ∈ line.data, _is_linebreak c = false := by
  have hnil : ∀ (fuel : Nat) (acc : List Char), (∀ c ∈ acc, _is_linebreak c = false) →
      ∀ line ∈ _splitlines_go fuel [] acc, ∀ c ∈ line.data, _is_linebreak c = false := by
    intro fuel acc hacc line hline c hc
    rw [_splitlines_go] at hline
    by_cases h : acc.isEmpty = true
    · rw [if_pos h] at hline
      simp at hline
    · rw [if_neg h] at hline
      rw [List.mem_singleton] at hline
      subst hline
      exact hacc c (by simpa using hc)
  intro fuel
  induction fuel with
  | zero =>
    intro l acc hacc line hline
    cases l with
    | nil => exact hnil 0 acc hacc line hline
    | cons d ds =>
      rw [_splitlines_go] at hline
      simp at hline
  | succ fuel ih =>
    intro l acc hacc line hline
    cases l with
    | nil => exact hnil (fuel + 1) acc hacc line hline
    | cons d ds =>
      rw [_splitlines_go] at hline
      by_cases h1 : d = '\r' ∧ ds.head? = some '\n'
      · rw [if_pos h1] at hline
        rcases List.mem_cons.mp hline with h | h
        · subst h
          intro c hc
          exact hacc c (by simpa using hc)
        · exact ih ds.tail [] (by simp) line h
      · rw [if_neg h1] at hline
        by_cases h2 : _is_linebreak d = true
        · rw [if_pos h2] at hline
          rcases List.mem_cons.mp hline with h | h
          · subst h
            intro c hc
            exact hacc c (by simpa using hc)
          · exact ih ds [] (by simp) line h
        · rw [if_neg h2] at hline
          refine ih ds (d :: acc) ?_ line hline
          intro e he
          rcases List.mem_cons.mp he with h | h
          · subst h
            exact eq_false_of_ne_true h2
          · exact hacc e h

/-- Pieces produced by the delimiter splitter contain no splitting
characters. -/
theorem _split_go_nosplit : ∀ (l acc : List Char) (b : Bool),
    (∀ c ∈ acc, _split_char c = false) →
    ∀ piece ∈ _split_go l acc b, ∀ c ∈ piece.data, _split_char c = false := by
  intro l
  induction l with
  | nil =>
    intro acc b hacc piece hp c hc
    rw [_split_go, List.mem_singleton] at hp
    subst hp
    exact hacc c (by simpa using hc)
  | cons d ds ih =>
    intro acc b hacc piece hp c hc
    rw [_split_go] at hp
    by_cases h1 : _split_char d = true
    · rw [if_pos h1] at hp
      by_cases h2 : b = true
      · rw [if_pos h2] at hp
        exact ih [] true (by simp) piece hp c hc
      · rw [if_neg h2] at hp
        rcases List.mem_cons.mp hp with h | h
        · subst h
          exact hacc c (by simpa using hc)
        · exact ih [] true (by simp) piece h c hc
    · rw [if_neg h1] at hp
      refine ih (d :: acc) false ?_ piece hp c hc
      intro e he
      rcases List.mem_cons.mp he with h | h
      · subst h
        exact eq_false_of_ne_true h1
      · exact hacc e h

/-- Characters of the delimiter splitter's pieces come from the input or
the accumulator. -/
theorem _split_go_subset : ∀ (l acc : List Char) (b : Bool),
    ∀ piece ∈ _split_go l acc b, ∀ c ∈ piece.data, c ∈ l ∨ c ∈ acc := by
  intro l
  induction l with
  | nil =>
    intro acc b piece hp c hc
    rw [_split_go, List.mem_singleton] at hp
    subst hp
    exact Or.inr (by simpa using hc)
  | cons d ds ih =>
    intro acc b piece hp c hc
    rw [_split_go] at hp
    by_cases h1 : _split_char d = true
    · rw [if_pos h1] at hp
      by_cases h2 : b = true
      · rw [if_pos h2] at hp
        rcases ih [] true piece hp c hc with h | h
        · exact Or.inl (List.mem_cons_of_mem d h)
        · simp at h
      · rw [if_neg h2] at hp
        rcases List.mem_cons.mp hp with h | h
        · subst h
          exact Or.inr (by simpa using hc)
        · rcases ih [] true piece h c hc with h | h
          · exact Or.inl (List.mem_cons_of_mem d h)
          · simp at h
    · rw [if_neg h1] at hp
      rcases ih (d :: acc) false piece hp c hc with h | h
      · exact Or.inl (List.mem_cons_of_mem d h)
      · rcases List.mem_cons.mp h with h | h
        · exact Or.inl (by rw [h]; exact List.mem_cons_self d ds)
        · exact Or.inr h

/-- The remainder returned by the pattern matcher is made of input
characters. -/
theorem _match_atoms_subset : ∀ (pat : List PatAtom) (l r : List Char),
    _match_atoms pat l = some r → ∀ c ∈ r, c ∈ l := by
  intro pat
  induction pat with
  | nil =>
    intro l r h c hc
    rw [_match_atoms, Option.some_inj] at h
    subst h
    exact hc
  | cons atom ps ih =>
    intro l r h c hc
    cases atom with
    | lit w =>
      rw [_match_atoms] at h
      by_cases hcnd : w.length ≤ l.length ∧ (l.take w.length).map Char.toLower = w
      · rw [if_pos hcnd] at h
        exact List.drop_subset _ l (ih _ _ h c hc)
      · rw [if_neg hcnd] at h
        cases h
    | gap =>
      rw [_match_atoms] at h
      exact List.Sublist.subset (List.dropWhile_sublist _) (ih _ _ h c hc)

/-- The inline capture is made of characters of the matcher remainder. -/
theorem _inline_capture_subset (rest cap : List Char)
    (h : _inline_capture rest = some cap) : ∀ c ∈ cap, c ∈ rest := by
  intro c hc
  unfold _inline_capture at h
  by_cases h1 : (rest.takeWhile _heading_class).length = 0
  · rw [if_pos h1] at h
    cases h
  · rw [if_neg h1] at h
    by_cases h2 : rest.drop (rest.takeWhile _heading_class).length ≠ []
    · rw [if_pos h2, Option.some_inj] at h
      subst h
      exact List.drop_subset _ rest hc
    · rw [if_neg h2] at h
      by_cases h3 : 2 ≤ (rest.takeWhile _heading_class).length
      · rw [if_pos h3, Option.some_inj] at h
        subst h
        rw [List.mem_singleton] at hc
        subst hc
        exact List.Sublist.subset (List.takeWhile_sublist _heading_class)
          (_getLastD_mem _ (by
            intro hnil
            rw [hnil] at h1
            exact h1 rfl) ' ')
      · rw [if_neg h3] at h
        cases h

/-- The inline-heading capture is made of characters of the line. -/
theorem _inline_match_subset (l : String) (cap : String)
    (h : _inline_heading_match l = some cap) : ∀ c ∈ cap.data, c ∈ l.data := by
  intro c hc
  obtain ⟨pat, _, hpat⟩ := List.exists_of_findSome?_eq_some h
  cases hm : _match_atoms pat l.data with
  | none =>
    rw [hm] at hpat
    cases hpat
  | some rest =>
    rw [hm] at hpat
    dsimp only at hpat
    rcases Option.map_eq_some'.mp hpat with ⟨capl, hcapl, hmk⟩
    subst hmk
    exact _match_atoms_subset pat l.data rest hm c
      (_inline_capture_subset rest capl hcapl c hc)

/-- The tech-stack capture at one position is made of input characters. -/
theorem _techstack_at_subset (prev : Option Char) (l cap : List Char)
    (h : _techstack_at prev l = some cap) : ∀ c ∈ cap, c ∈ l := by
  intro c hc
  unfold _techstack_at at h
  by_cases hb : _boundary_ok prev = true
  · rw [if_neg (by simp [hb])] at h
    cases hm : _match_atoms [.lit "tech".data, .gap, .lit "stack".data] l with
    | none =>
      rw [hm] at h
      cases h
    | some rest =>
      rw [hm] at h
      dsimp only at h
      have hrest : ∀ d ∈ rest, d ∈ l := _match_atoms_subset _ l rest hm
      by_cases ha : _boundary_ok rest.head? = true
      · rw [if_neg (by simp [ha])] at h
        cases hdw : rest.dropWhile _py_ws with
        | nil =>
          rw [hdw] at h
          cases h
        | cons c0 rest3 =>
          rw [hdw] at h
          dsimp only at h
          have hrest3 : ∀ d ∈ rest3, d ∈ l := by
            intro d hd
            have hd' : d ∈ rest.dropWhile _py_ws := by
              rw [hdw]
              exact List.mem_cons_of_mem c0 hd
            exact hrest d (List.Sublist.subset (List.dropWhile_sublist _py_ws) hd')
          by_cases hcol : c0 = ':' ∨ c0 = '：'
          · rw [if_pos hcol] at h
            by_cases h4 : rest3.drop (rest3.takeWhile _py_ws).length ≠ []
            · rw [if_pos h4, Option.some_inj] at h
              subst h
              exact hrest3 c (List.drop_subset _ rest3 hc)
            · rw [if_neg h4] at h
              by_cases h5 : rest3.takeWhile _py_ws ≠ []
              · rw [if_pos h5, Option.some_inj] at h
                subst h
                rw [List.mem_singleton] at hc
                subst hc
                exact hrest3 _ (List.Sublist.subset (List.takeWhile_sublist _)
                  (_getLastD_mem _ h5 ' '))
              · rw [if_neg h5] at h
                cases h
          · rw [if_neg hcol] at h
            cases h
      · rw [if_pos (by simpa using ha)] at h
        cases h
  · rw [if_pos (by simpa using hb)] at h
    cases h

/-- The tech-stack search capture is made of input characters. -/
theorem _techstack_search_subset : ∀ (l : List Char) (prev : Option Char) (cap : String),
    _techstack_search prev l = some cap → ∀ c ∈ cap.data, c ∈ l := by
  intro l
  induction l with
  | nil =>
    intro prev cap h
    cases h
  | cons d ds ih =>
    intro prev cap h c hc
    rw [_techstack_search] at h
    cases hat : _techstack_at prev (d :: ds) with
    | some cap0 =>
      rw [hat, Option.some_inj] at h
      subst h
      exact _techstack_at_subset prev (d :: ds) cap0 hat c hc
    | none =>
      rw [hat] at h
      dsimp only at h
      exact List.mem_cons_of_mem d (ih (some d) cap h c hc)

/-- Every character of a collected candidate comes from one of the lines or
is the joining space. -/
theorem _scan_lines_chars : ∀ (fuel : Nat) (lines : List String) (cand : String),
    cand ∈ _scan_lines fuel lines → ∀ c ∈ cand.data,
      (∃ line ∈ lines, c ∈ line.data) ∨ c = ' ' := by
  intro fuel
  induction fuel with
  | zero =>
    intro lines cand h
    rw [_scan_lines] at h
    simp at h
  | succ fuel ih =>
    intro lines cand h c hc
    cases lines with
    | nil =>
      rw [show _scan_lines (fuel + 1) [] = [] from rfl] at h
      simp at h
    | cons line rest =>
      rw [_scan_lines] at h
      by_cases h1 : line = ""
      · rw [if_pos h1] at h
        rcases ih rest cand h c hc with ⟨l0, hl0, hcl⟩ | hsp
        · exact Or.inl ⟨l0, List.mem_cons_of_mem line hl0, hcl⟩
        · exact Or.inr hsp
      · rw [if_neg h1] at h
        cases him : _inline_heading_match line with
        | some cap =>
          rw [him] at h
          dsimp only at h
          rcases List.mem_cons.mp h with heq | hmem
          · subst heq
            refine Or.inl ⟨line, List.mem_cons_self line rest, ?_⟩
            exact _inline_match_subset line cap him c (_strip_while_subset _ _ c hc)
          · rcases ih rest cand hmem c hc with ⟨l0, hl0, hcl⟩ | hsp
            · exact Or.inl ⟨l0, List.mem_cons_of_mem line hl0, hcl⟩
            · exact Or.inr hsp
        | none =>
          rw [him] at h
          dsimp only at h
          cases hts : _techstack_search none line.data with
          | some cap =>
            rw [hts] at h
            dsimp only at h
            rcases List.mem_cons.mp h with heq | hmem
            · subst heq
              refine Or.inl ⟨line, List.mem_cons_self line rest, ?_⟩
              exact _techstack_search_subset line.data none cap hts c
                (_strip_while_subset _ _ c hc)
            · rcases ih rest cand hmem c hc with ⟨l0, hl0, hcl⟩ | hsp
              · exact Or.inl ⟨l0, List.mem_cons_of_mem line hl0, hcl⟩
              · exact Or.inr hsp
          | none =>
            rw [hts] at h
            dsimp only at h
            by_cases h2 : _heading_re_match line = true
            · rw [if_pos h2] at h
              rw [List.mem_append] at h
              rcases h with h | h
              · by_cases h3 : (_grab_block rest).isEmpty = true
                · rw [if_pos h3] at h
                  simp at h
                · rw [if_neg h3] at h
                  rw [List.mem_singleton] at h
                  subst h
                  rcases _intercalate_chars " " (_grab_block rest) c hc with ⟨s, hs, hcs⟩ | hsep
                  · refine Or.inl ⟨s, List.mem_cons_of_mem line ?_, hcs⟩
                    exact List.Sublist.subset (List.takeWhile_sublist _) hs
                  · right
                    simpa using hsep
              · rcases ih (rest.drop (_grab_block rest).length) cand h c hc with
                  ⟨l0, hl0, hcl⟩ | hsp
                · exact Or.inl ⟨l0, List.mem_cons_of_mem line
                    (List.drop_subset _ rest hl0), hcl⟩
                · exact Or.inr hsp
            · rw [if_neg h2] at h
              rcases ih rest cand h c hc with ⟨l0, hl0, hcl⟩ | hsp
              · exact Or.inl ⟨l0, List.mem_cons_of_mem line hl0, hcl⟩
              · exact Or.inr hsp

/-- Characters of a cleaned token come from the raw token. -/
theorem _token_clean_subset (p : String) (c : Char) (h : c ∈ (_token_clean p).data) :
    c ∈ p.data := by
  rw [_token_clean_data] at h
  exact _strip_while_subset _ _ c (_strip_while_subset _ _ c h)

/-- Every character of an extracted token is neither a splitting delimiter
nor a line break. -/
theorem _extract_token_chars (text tok : String)
    (h : tok ∈ extract_skills_from_text text) :
    ∀ c ∈ tok.data, _split_char c = false ∧ _is_linebreak c = false := by
  intro c hc
  unfold extract_skills_from_text at h
  by_cases ht : text = ""
  · rw [if_pos ht] at h
    simp at h
  · rw [if_neg ht] at h
    obtain ⟨p, hp, heq, -, -, -, -⟩ := _filter_tokens_mem _ _ tok h
    rw [List.mem_flatMap] at hp
    obtain ⟨cand, hcand, hpc⟩ := hp
    have hcp : c ∈ p.data := by
      rw [heq] at hc
      exact _token_clean_subset p c hc
    constructor
    · exact _split_go_nosplit cand.data [] false (by simp) p hpc c hcp
    · rcases _split_go_subset cand.data [] false p hpc c hcp with hccand | hfalse
      · rcases _scan_lines_chars _ _ cand hcand c hccand with ⟨line, hline, hcl⟩ | hsp
        · rw [List.mem_map] at hline
          obtain ⟨l0, hl0, hstrip⟩ := hline
          subst hstrip
          have hcl0 : c ∈ l0.data := _strip_while_subset _ _ c hcl
          exact _splitlines_no_lb text.data.length text.data [] (by simp) l0 hl0 c hcl0
        · subst hsp
          decide
      · simp at hfalse

/-- On non-empty lists `getLastD` agrees with `getLast`. -/
theorem _getLastD_eq_getLast {α : Type} : ∀ (l : List α) (h : l ≠ []) (d : α),
    l.getLastD d = l.getLast h := by
  intro l
  induction l with
  | nil => intro h d; exact absurd rfl h
  | cons x xs ih =>
    intro h d
    cases xs with
    | nil => rfl
    | cons y ys =>
      rw [List.getLastD_cons, List.getLast_cons (List.cons_ne_nil y ys)]
      exact ih (List.cons_ne_nil y ys) x

/-- An allowed token character other than a hyphen is not in the heading
class `[:\s-]`. -/
theorem _allowed_not_heading (c : Char) (h1 : _allowed_char c = true) (h2 : c ≠ '-') :
    _heading_class c = false := by
  by_cases h3 : c = ':'
  · subst h3
    exact absurd h1 (by decide)
  · simp [_heading_class, h3, h2, _allowed_not_ws c h1]

/-- A leading space does not change the cleaning of a token. -/
theorem _clean_space (t : String) :
    _token_clean (String.mk (' ' :: t.data)) = _token_clean t := by
  have h : _strip_while _py_ws (' ' :: t.data) = _strip_while _py_ws t.data := by
    rw [_strip_while_def, _strip_while_def, List.dropWhile_cons_of_pos (by decide)]
  apply String.ext
  rw [_token_clean_data, _token_clean_data,
    show (String.mk (' ' :: t.data)).data = ' ' :: t.data from rfl, h]

/-- Prefixing each piece with a space relates the space-prefixed list to the
original one under token cleaning, for already-clean pieces. -/
theorem _forall₂_space (L : List String) (h : ∀ tk ∈ L, _token_clean tk = tk) :
    List.Forall₂ (fun p tk => _token_clean p = tk)
      (L.map (fun s => String.mk (' ' :: s.data))) L := by
  induction L with
  | nil => exact List.Forall₂.nil
  | cons a as ih =>
    rw [List.map_cons]
    exact List.Forall₂.cons ((_clean_space a).trans (h a (List.mem_cons_self a as)))
      (ih fun tk htk => h tk (List.mem_cons_of_mem a htk))

/-- An intercalation starts with the characters of its first piece. -/
theorem _intercalate_data_front (sep t : String) (ts : List String) :
    ∃ r, (String.intercalate sep (t :: ts)).data = t.data ++ r := by
  cases ts with
  | nil =>
    refine ⟨[], ?_⟩
    rw [List.append_nil]
    rfl
  | cons u us =>
    refine ⟨sep.data ++ (String.intercalate sep (u :: us)).data, ?_⟩
    rw [_intercalate_cons₂, String.data_append, String.data_append, List.append_assoc]

/-- The delimiter splitter consumes a delimiter-free non-empty chunk into its
accumulator. -/
theorem _split_go_eat : ∀ (w l acc : List Char) (b : Bool),
    (∀ c ∈ w, _split_char c = false) → w ≠ [] →
    _split_go (w ++ l) acc b = _split_go l (w.reverse ++ acc) false := by
  intro w
  induction w with
  | nil => intro l acc b _ hne; exact absurd rfl hne
  | cons d ds ih =>
    intro l acc b hw _
    rw [List.cons_append, _split_go, if_neg (by simp [hw d (List.mem_cons_self d ds)])]
    cases ds with
    | nil => rfl
    | cons e es =>
      have hrw : ((d :: e :: es : List Char)).reverse ++ acc =
          (e :: es).reverse ++ (d :: acc) := by
        rw [List.reverse_cons, List.append_assoc]
        rfl
      rw [hrw]
      exact ih l (d :: acc) false (fun c hc => hw c (List.mem_cons_of_mem d hc))
        (List.cons_ne_nil e es)

/-- Splitting an intercalation of delimiter-free non-empty pieces on the
delimiter class returns the pieces, each piece after the first carrying the
joining space. -/
theorem _split_intercalate : ∀ (ts : List String) (t : String) (acc : List Char),
    (∀ s ∈ t :: ts, s.data ≠ [] ∧ ∀ c ∈ s.data, _split_char c = false) →
    _split_go (String.intercalate ", " (t :: ts)).data acc false =
      String.mk (acc.reverse ++ t.data) :: ts.map (fun s => String.mk (' ' :: s.data)) := by
  intro ts
  induction ts with
  | nil =>
    intro t acc hts
    obtain ⟨hne, hns⟩ := hts t (List.mem_cons_self t [])
    rw [show (String.intercalate ", " [t]).data = t.data from rfl]
    have h0 := _split_go_eat t.data [] acc false hns hne
    rw [List.append_nil] at h0
    rw [h0, _split_go, List.reverse_append, List.reverse_reverse]
    rfl
  | cons u us ih =>
    intro t acc hts
    obtain ⟨hne, hns⟩ := hts t (List.mem_cons_self _ _)
    have hdata : (String.intercalate ", " (t :: u :: us)).data =
        t.data ++ (',' :: ' ' :: (String.intercalate ", " (u :: us)).data) := by
      rw [_intercalate_cons₂, String.data_append, String.data_append, List.append_assoc]
      rfl
    rw [hdata]
    rw [_split_go_eat t.data _ acc false hns hne]
    rw [_split_go, if_pos (by decide), if_neg (by decide)]
    rw [_split_go, if_neg (by decide)]
    rw [ih u [' '] (fun s hs => hts s (List.mem_cons_of_mem t hs))]
    rw [List.reverse_append, List.reverse_reverse]
    rfl

/-- The filtering loop is the identity on a list of already-clean, accepted,
non-stopword tokens with pairwise-distinct keys avoiding `seen`, presented
through arbitrary raw pieces that clean to them. -/
theorem _filter_tokens_exact : ∀ (ps T : List String),
    List.Forall₂ (fun p tk => _token_clean p = tk) ps T →
    ∀ seen : List String,
      (∀ tk ∈ T, tk ≠ "" ∧ _accept_token tk = true ∧
        STOPWORDS.contains (_py_lower tk) = false ∧
        seen.contains (_py_lower tk) = false) →
      (T.map _py_lower).Nodup → _filter_tokens ps seen = T := by
  intro ps T hf
  induction hf with
  | nil =>
    intro seen _ _
    rfl
  | @cons p tk ps' T' hpt hrest ih =>
    intro seen hfacts hnodup
    obtain ⟨hne, hacc, hstop, hseen⟩ := hfacts tk (List.mem_cons_self tk T')
    rw [List.map_cons, List.nodup_cons] at hnodup
    obtain ⟨hnotin, htail⟩ := hnodup
    rw [_filter_tokens, hpt]
    rw [if_neg hne]
    rw [if_neg (fun h => Bool.false_ne_true (hstop.symm.trans h))]
    rw [if_pos (by rw [hacc, hseen]; rfl)]
    refine congrArg (List.cons tk) (ih (_py_lower tk :: seen) ?_ htail)
    intro tk' htk'
    obtain ⟨h1, h2, h3, h4⟩ := hfacts tk' (List.mem_cons_of_mem tk htk')
    refine ⟨h1, h2, h3, ?_⟩
    rw [List.contains_cons, h4]
    simp only [Bool.or_false]
    rw [beq_eq_false_iff_ne]
    intro heq
    exact hnotin (heq ▸ List.mem_map_of_mem _py_lower htk')

/-- C5, amended: re-feeding the comma-joined token list *with a skills
heading prefixed* reproduces the tokens exactly: for every `text`, if the
first extracted token does not begin with `'-'`, then the extractor applied
to `"Skills: "` followed by the joined output of
`extract_skills_from_text text` returns that same token list.  (Without the
heading the joined line carries no cue and the second pass returns the
empty list, as the counterexample shows; a leading `'-'` on the first token
would be swallowed by the heading pattern's greedy `[:\s-]+` run.) -/
theorem extract_skills_refeed_with_heading (text : String)
    (hhead : ∀ t ts, extract_skills_from_text text = t :: ts →
      t.data.head? ≠ some '-') :
    extract_skills_from_text
        ("Skills: " ++ String.intercalate ", " (extract_skills_from_text text)) =
      extract_skills_from_text text := by
  cases hT : extract_skills_from_text text with
  | nil => decide
  | cons t ts =>
    have htext : text ≠ "" := by
      intro h0
      rw [h0, show extract_skills_from_text "" = [] from rfl] at hT
      exact List.noConfusion hT
    have hE : extract_skills_from_text text =
        _filter_tokens ((_scan_lines ((py_splitlines text).map _py_strip).length
          ((py_splitlines text).map _py_strip)).flatMap _split_parts) [] := by
      unfold extract_skills_from_text
      rw [if_neg htext]
    have hT' : _filter_tokens ((_scan_lines ((py_splitlines text).map _py_strip).length
        ((py_splitlines text).map _py_strip)).flatMap _split_parts) [] = t :: ts :=
      hE.symm.trans hT
    have hmem0 : ∀ tok ∈ t :: ts, ∃ p, tok = _token_clean p ∧ tok ≠ "" ∧
        _accept_token tok = true ∧ STOPWORDS.contains (_py_lower tok) = false := by
      intro tok htok
      rw [← hT'] at htok
      obtain ⟨p, -, heq, hne, hacc, hstop, -⟩ := _filter_tokens_mem _ _ tok htok
      exact ⟨p, heq, hne, hacc, hstop⟩
    have hfix : ∀ tok ∈ t :: ts, _token_clean tok = tok := by
      intro tok htok
      obtain ⟨p, heq, -, -, -⟩ := hmem0 tok htok
      rw [heq]
      exact _token_clean_idem p
    have hshape : ∀ tok ∈ t :: ts, ∃ x xs, tok.data = x :: xs ∧ _allowed_char x = true ∧
        _allowed_char ((x :: xs).getLast (List.cons_ne_nil x xs)) = true := by
      intro tok htok
      obtain ⟨p, heq, hne, -, -⟩ := hmem0 tok htok
      rcases _token_clean_shape p with h0 | ⟨x, xs, hd, hx, hl⟩
      · rw [← heq] at h0
        exact absurd h0 hne
      · rw [← heq] at hd
        exact ⟨x, xs, hd, hx, hl⟩
    have hchars : ∀ tok ∈ t :: ts, ∀ c ∈ tok.data,
        _split_char c = false ∧ _is_linebreak c = false := by
      intro tok htok
      rw [← hT] at htok
      exact _extract_token_chars text tok htok
    have hdata_ne : ∀ tok ∈ t :: ts, tok.data ≠ [] := by
      intro tok htok h0
      obtain ⟨x, xs, hd, -, -⟩ := hshape tok htok
      rw [h0] at hd
      exact List.noConfusion hd
    have hnodup : ((t :: ts).map _py_lower).Nodup := by
      have h0 := (_filter_tokens_keys ((_scan_lines ((py_splitlines text).map _py_strip).length
        ((py_splitlines text).map _py_strip)).flatMap _split_parts) []).2
      rw [hT'] at h0
      exact h0
    set J := String.intercalate ", " (t :: ts) with hJdef
    obtain ⟨x, xs, htd, hx_allowed, hxlast⟩ := hshape t (List.mem_cons_self t ts)
    have hx_minus : x ≠ '-' := by
      have h0 := hhead t ts hT
      rw [htd] at h0
      intro h1
      rw [h1] at h0
      exact h0 rfl
    obtain ⟨r, hJd⟩ := _intercalate_data_front ", " t ts
    rw [← hJdef] at hJd
    have hJcons : J.data = x :: (xs ++ r) := by rw [hJd, htd, List.cons_append]
    have hJne : J.data ≠ [] := by rw [hJcons]; exact List.cons_ne_nil _ _
    have hJlast : ∀ d : Char, _allowed_char (J.data.getLastD d) = true := by
      intro d
      have h0 := (_intercalate_getLastD ", " t ts hdata_ne d).2
      rw [← hJdef] at h0
      rw [h0]
      obtain ⟨y, ys, hyd, -, hylast⟩ :=
        hshape ((t :: ts).getLast (List.cons_ne_nil t ts))
          (List.getLast_mem (List.cons_ne_nil t ts))
      rw [hyd, _getLastD_eq_getLast (y :: ys) (List.cons_ne_nil y ys) d]
      exact hylast
    have hstripJ : _py_strip J = J := by
      have hh : ∀ y ys, J.data = y :: ys → _py_ws y = false := by
        intro y ys hy
        rw [hJcons] at hy
        injection hy with h1 h2
        rw [← h1]
        exact _allowed_not_ws x hx_allowed
      have hl : ∀ h' : J.data ≠ [], _py_ws (J.data.getLast h') = false := by
        intro h'
        rw [← _getLastD_eq_getLast J.data h' ' ']
        exact _allowed_not_ws _ (hJlast ' ')
      unfold _py_strip
      rw [_strip_while_eq_self _py_ws J.data hh hl]
    set s0 := "Skills: " ++ J with hs0def
    have hs0data : s0.data = "Skills: ".data ++ J.data := rfl
    have hs0cons : s0.data = 'S' :: 'k' :: 'i' :: 'l' :: 'l' :: 's' :: ':' :: ' ' :: J.data :=
      rfl
    have hs0ne : s0 ≠ "" := by
      intro h0
      have h1 : s0.data = [] := by rw [h0]
      rw [hs0cons] at h1
      exact List.noConfusion h1
    have hlb : ∀ c ∈ s0.data, _is_linebreak c = false := by
      intro c hc
      rw [hs0data, List.mem_append] at hc
      rcases hc with hc | hc
      · have h8 : c ∈ (['S', 'k', 'i', 'l', 'l', 's', ':', ' '] : List Char) := hc
        simp only [List.mem_cons, List.not_mem_nil, or_false] at h8
        rcases h8 with rfl | rfl | rfl | rfl | rfl | rfl | rfl | rfl <;> decide
      · rcases _intercalate_chars ", " (t :: ts) c (hJdef ▸ hc) with ⟨s, hs, hcs⟩ | hsep
        · exact (hchars s hs c hcs).2
        · have h2 : c ∈ ([',', ' '] : List Char) := hsep
          simp only [List.mem_cons, List.not_mem_nil, or_false] at h2
          rcases h2 with rfl | rfl <;> decide
    have hsl : py_splitlines s0 = [s0] := by
      unfold py_splitlines
      rw [_splitlines_go_no_lb s0.data.length s0.data [] (le_refl _) hlb]
      have hemp : (([] : List Char).reverse ++ s0.data).isEmpty = false := by
        rw [show ([] : List Char).reverse ++ s0.data = s0.data from rfl, hs0cons]
        rfl
      rw [if_neg (fun h => Bool.false_ne_true (hemp.symm.trans h))]
      rfl
    have hstrip0 : _py_strip s0 = s0 := by
      have hh : ∀ y ys, s0.data = y :: ys → _py_ws y = false := by
        intro y ys hy
        rw [hs0cons] at hy
        injection hy with h1 h2
        rw [← h1]
        decide
      have hl : ∀ h' : s0.data ≠ [], _py_ws (s0.data.getLast h') = false := by
        intro h'
        rw [← _getLastD_eq_getLast s0.data h' ' ']
        rw [hs0data, _getLastD_append "Skills: ".data J.data ' ' hJne]
        exact _allowed_not_ws _ (hJlast ' ')
      unfold _py_strip
      rw [_strip_while_eq_self _py_ws s0.data hh hl]
    have hlen : ("skills".data).length ≤ s0.data.length := by
      rw [hs0data, List.length_append]
      exact le_trans (by decide) (Nat.le_add_right "Skills: ".data.length J.data.length)
    have htake : (s0.data.take ("skills".data).length).map Char.toLower = "skills".data := rfl
    have hmatch : _match_atoms [PatAtom.lit "skills".data] s0.data =
        some (':' :: ' ' :: J.data) := by
      rw [_match_atoms, if_pos ⟨hlen, htake⟩, _match_atoms]
      rfl
    have hrun : (':' :: ' ' :: J.data).takeWhile _heading_class = [':', ' '] := by
      rw [List.takeWhile_cons_of_pos (by decide), List.takeWhile_cons_of_pos (by decide)]
      rw [hJcons]
      rw [List.takeWhile_cons_of_neg
        (by simp [_allowed_not_heading x hx_allowed hx_minus])]
    have hcap : _inline_capture (':' :: ' ' :: J.data) = some J.data := by
      unfold _inline_capture
      dsimp only
      rw [hrun]
      rw [if_neg (by decide)]
      rw [show (':' :: ' ' :: J.data).drop ([':', ' '] : List Char).length = J.data from rfl]
      rw [if_pos hJne]
    have hinline : _inline_heading_match s0 = some J := by
      unfold _inline_heading_match _inline_alts
      rw [List.findSome?_cons]
      dsimp only
      rw [hmatch]
      dsimp only
      rw [hcap]
      rfl
    have hscan : _scan_lines (0 + 1) [s0] = [J] := by
      rw [_scan_lines]
      rw [if_neg hs0ne]
      rw [hinline]
      dsimp only
      rw [hstripJ]
      rfl
    have hcond : ∀ s ∈ t :: ts, s.data ≠ [] ∧ ∀ c ∈ s.data, _split_char c = false :=
      fun s hs => ⟨hdata_ne s hs, fun c hc => (hchars s hs c hc).1⟩
    unfold extract_skills_from_text
    rw [if_neg hs0ne]
    rw [hsl]
    simp only [List.map_cons, List.map_nil]
    rw [hstrip0]
    simp only [List.length_cons, List.length_nil]
    rw [hscan]
    simp only [List.flatMap_cons, List.flatMap_nil, List.append_nil]
    rw [show _split_parts J = _split_go J.data [] false from rfl]
    rw [hJdef]
    rw [_split_intercalate ts t [] hcond]
    refine _filter_tokens_exact _ _ ?_ [] ?_ hnodup
    · exact List.Forall₂.cons (hfix t (List.mem_cons_self t ts))
        (_forall₂_space ts (fun tk htk => hfix tk (List.mem_cons_of_mem t htk)))
    · intro tk htk
      obtain ⟨p, -, hne, hacc, hstop⟩ := hmem0 tk htk
      exact ⟨hne, hacc, hstop, rfl⟩

/-- Witness for C5's amended round-trip at a concrete extraction. -/
theorem extract_skills_refeed_with_heading_witness :
    (∀ t ts, extract_skills_from_text "Skills: Python, AWS" = t :: ts →
        t.data.head? ≠ some '-') ∧
      extract_skills_from_text
          ("Skills: " ++ String.intercalate ", "
            (extract_skills_from_text "Skills: Python, AWS")) =
        extract_skills_from_text "Skills: Python, AWS" := by
  have hh : ∀ t ts, extract_skills_from_text "Skills: Python, AWS" = t :: ts →
      t.data.head? ≠ some '-' := by
    intro t ts heq
    rw [show extract_skills_from_text "Skills: Python, AWS" = ["Python", "AWS"]
      from by decide] at heq
    injection heq with h1 h2
    rw [← h1]
    decide
  exact ⟨hh, extract_skills_refeed_with_heading "Skills: Python, AWS" hh⟩

end RS
